import Mathlib

/-!
Shallow embedding of the gossip routing engine (gossipd/routing.c).

Conventions of the embedding:
* Node ids (33-byte pubkeys), short channel ids (u64), chain hashes and
  wire-message byte strings are modelled as `Nat` / `List Nat`; pubkey
  comparison (`pubkey_cmp`) becomes `Nat` order, pointer equality of nodes
  and channels becomes equality of their keys.
* Machine integers: amounts, fees and risks are `Nat` (the code guards all
  sums by `MAX_MSATOSHI = 2^40` and `INFINITE = 2^62 - 1`, so `u64`
  wrap-around is unreachable and plain `Nat` arithmetic is faithful);
  signed timestamps (`s64`, `time_t`) are `Int`.
* The C `double` values (`riskfactor`, `fuzz`, the fee scale) are modelled
  as exact rationals, with the implicit double-to-u64 conversions written
  as explicit floors.
* External collaborators (wire parsing, ECDSA/SHA256 checks, the script
  computation, siphash, the clock) are out of scope of the repository and
  enter as an explicit environment `Env` of deterministic oracles.
* The tal-allocated `node.chans` pointer arrays are lists of channel keys;
  adjacency follows the channel objects held in the `scid`-indexed channel
  map, exactly mirroring the pointer graph.
-/

/-! ### Constants from routing.c and its headers -/

/-- 365.25 * 24 * 60 / 10, from routing.c. -/
def BLOCKS_PER_YEAR : Nat := 52596

/-- For overflow avoidance the code never deals with msatoshi of 40 bits or more. -/
def MAX_MSATOSHI : Nat := 2 ^ 40

/-- Proportional fee must be below 24 bits so the fee product cannot overflow. -/
def MAX_PROPORTIONAL_FEE : Nat := 2 ^ 24

/-- Maximum number of hops in a route (onion packet limit), from routing.h. -/
def ROUTING_MAX_HOPS : Nat := 20

/-- Too big to reach, but does not overflow if added (0x3FFFFFFFFFFFFFFF). -/
def INFINITE : Nat := 2 ^ 62 - 1

/-- Low bit of channel_update flags selecting the direction; bit 1 is DISABLED
(ROUTING_FLAGS_DISABLED from routing.h). -/
def ROUTING_FLAGS_DISABLED : Nat := 2

/-- Wire type discriminators (gen_peer_wire.h). -/
def WIRE_CHANNEL_ANNOUNCEMENT : Nat := 256

def WIRE_NODE_ANNOUNCEMENT : Nat := 257

def WIRE_CHANNEL_UPDATE : Nat := 258

/-- Onion failure code bits (BOLT 4, gen_onion_wire.h): permanent failure. -/
def PERM : Nat := 0x4000

/-- Onion failure code bit: failure concerns the whole node. -/
def NODE : Nat := 0x2000

/-- Onion failure code bit: an embedded channel_update follows. -/
def UPDATE : Nat := 0x1000

/-! ### Parsed wire messages

The `fromwire_*` parsers and all cryptographic checks live outside this
repository; a successful parse is modelled as producing one of the records
below from the raw bytes.  Signatures are carried inside the raw bytes and
checked by the environment oracles. -/

/-- Fields of a parsed channel_announcement
(fromwire_channel_announcement, minus the four signatures. -/
structure CAnnMsg where
  features : List Nat
  chain_hash : Nat
  short_channel_id : Nat
  node_id_1 : Nat
  node_id_2 : Nat
  bitcoin_key_1 : Nat
  bitcoin_key_2 : Nat
deriving DecidableEq, Repr

/-- Fields of a parsed channel_update (fromwire_channel_update, minus the
signature). -/
structure CUpdMsg where
  chain_hash : Nat
  short_channel_id : Nat
  timestamp : Nat
  flags : Nat
  expiry : Nat
  htlc_minimum_msat : Nat
  fee_base_msat : Nat
  fee_proportional_millionths : Nat
deriving DecidableEq, Repr

/-- Fields of a parsed node_announcement (fromwire_node_announcement, minus
the signature). -/
structure NAnnMsg where
  features : List Nat
  timestamp : Nat
  node_id : Nat
  rgb_color : List Nat
  alias_bytes : List Nat
  addresses : List Nat
deriving DecidableEq, Repr

/-- Environment of external collaborators.  Modelled from the spec: wire
(de)serialization, double-SHA-256/ECDSA signature checking over the raw
bytes, the P2WSH 2-of-2 script computation, siphash and the wall clock are
external contracts of the component; each is a deterministic oracle here.
`checkCUSig key bytes` is check_channel_update against a node key,
`checkCAnnSig` is check_channel_announcement (all four signatures),
`checkNASig` checks a node_announcement against the node id it carries. -/
structure Env where
  now : Int
  parseCA : List Nat → Option CAnnMsg
  parseCU : List Nat → Option CUpdMsg
  parseNA : List Nat → Option NAnnMsg
  checkCAnnSig : List Nat → Bool
  checkCUSig : Nat → List Nat → Bool
  checkNASig : List Nat → Bool
  unsupportedFeatures : List Nat → Bool
  expectedScript : Nat → Nat → List Nat
  readAddresses : List Nat → Option (List Nat)
  peekType : List Nat → Nat
  siphashScid : Nat → Nat

/-! ### The data model (struct half_chan, struct chan, struct node,
struct pending_cannouncement, struct pending_node_announce) -/

/-- One direction of a channel (struct half_chan).  The fee/delay fields are
uninitialised in the C until the first set_connection_values; they are 0
here and are only read once `active` can be true.  `flags` low bit equals
the direction index. -/
structure HalfChan where
  channel_update : Option (List Nat)
  channel_update_msgidx : Nat
  base_fee : Nat
  proportional_fee : Nat
  delay : Nat
  htlc_minimum_msat : Nat
  flags : Nat
  active : Bool
  last_timestamp : Int
  unroutable_until : Int
deriving DecidableEq, Repr

/-- A channel (struct chan).  `node0`/`node1` are the canonically ordered
endpoint node ids (nodes[0] has the smaller pubkey); `half0`/`half1` are the
half-edges originating at the respective endpoint. -/
structure Chan where
  scid : Nat
  node0 : Nat
  node1 : Nat
  public : Bool
  satoshis : Nat
  half0 : HalfChan
  half1 : HalfChan
  channel_announcement : Option (List Nat)
  channel_announce_msgidx : Nat
deriving DecidableEq, Repr

/-- A node (struct node).  `chans` is the tal array of incident channels,
kept as the list of their scids in insertion order.  `rgb_color` is
uninitialised in the C until the first node_announcement.  The bfg scratch
array only lives during a find_route call and is threaded through the
path-finder explicitly instead. -/
structure Node where
  id : Nat
  chans : List Nat
  alias_bytes : Option (List Nat)
  node_announcement : Option (List Nat)
  announcement_idx : Nat
  last_timestamp : Int
  addresses : List Nat
  rgb_color : List Nat
deriving DecidableEq, Repr

/-- A channel announcement that passed the local checks and waits for the
chain oracle (struct pending_cannouncement). -/
structure PendingCAnn where
  short_channel_id : Nat
  node_id_1 : Nat
  node_id_2 : Nat
  bitcoin_key_1 : Nat
  bitcoin_key_2 : Nat
  announce : List Nat
  updates0 : Option (List Nat)
  updates1 : Option (List Nat)
  update_timestamps0 : Nat
  update_timestamps1 : Nat
deriving DecidableEq, Repr

/-- A parking slot for a node_announcement arriving while the node's first
channel announcement awaits its chain check (struct pending_node_announce). -/
structure PendingNAnn where
  nodeid : Nat
  node_announcement : Option (List Nat)
  timestamp : Nat
deriving DecidableEq, Repr

/-- Broadcast store entry.  Modelled from the spec: the broadcast store is
an external component enforcing at most one live message per (type, tag);
entries keep their queue index for the dedup handshake. -/
structure BEntry where
  idx : Nat
  wtype : Nat
  tag : List Nat
  payload : List Nat
deriving DecidableEq, Repr

/-- Broadcast store state.  Modelled from the spec: replace_broadcast
deletes any live message with the same type and tag, appends the new one
under a fresh index, and reports whether a message at a different index
than the caller supplied was evicted. -/
structure Broadcasts where
  entries : List BEntry
  next_index : Nat
deriving DecidableEq, Repr

/-- Modelled from the spec: the broadcaster contract
replace_broadcast(existing_idx, type, tag, bytes) -> replaced_flag.
Returns the new store, the index of the stored message, and the flag. -/
def replace_broadcast (b : Broadcasts) (callerIdx : Nat) (wtype : Nat)
    (tag : List Nat) (payload : List Nat) : Broadcasts × Nat × Bool :=
  let old := b.entries.find? (fun e => e.wtype == wtype && e.tag == tag)
  let evicted := match old with
    | some e => e.idx != callerIdx
    | none => false
  let kept := b.entries.filter (fun e => !(e.wtype == wtype && e.tag == tag))
  (⟨kept ++ [⟨b.next_index, wtype, tag, payload⟩], b.next_index + 1⟩,
   b.next_index, evicted)

/-- The whole routing state (struct routing_state). -/
structure RoutingState where
  nodes : List Node
  chanmap : List Chan
  pending_cann : List PendingCAnn
  pending_node_map : List PendingNAnn
  broadcasts : Broadcasts
  chain_hash : Nat
  local_id : Nat
  prune_timeout : Nat
deriving DecidableEq, Repr

/-- new_routing_state: empty maps. -/
def new_routing_state (chain_hash local_id : Nat) (prune_timeout : Nat) :
    RoutingState :=
  { nodes := [], chanmap := [], pending_cann := [], pending_node_map := [],
    broadcasts := ⟨[], 1⟩, chain_hash := chain_hash, local_id := local_id,
    prune_timeout := prune_timeout }

/-! ### List helpers: the in-place mutation of a uniquely keyed object found
in a map becomes replacement / erasure of the first matching list entry. -/

/-- Replace the first entry satisfying the predicate. -/
def replaceFirstBy (p : α → Bool) (x : α) : List α → List α
  | [] => []
  | a :: r => if p a then x :: r else a :: replaceFirstBy p x r

/-- Erase the first entry satisfying the predicate. -/
def eraseFirstBy (p : α → Bool) : List α → List α
  | [] => []
  | a :: r => if p a then r else a :: eraseFirstBy p r

/-! ### Graph store accessors -/

/-- get_node. -/
def get_node (st : RoutingState) (id : Nat) : Option Node :=
  st.nodes.find? (fun n => n.id == id)

/-- get_channel (uintmap_get on the scid map). -/
def get_channel (st : RoutingState) (scid : Nat) : Option Chan :=
  st.chanmap.find? (fun c => c.scid == scid)

/-- Replace the node with the given id (mutation of the found object). -/
def modifyNode (st : RoutingState) (id : Nat) (f : Node → Node) :
    RoutingState :=
  match get_node st id with
  | none => st
  | some n => { st with nodes := replaceFirstBy (fun m => m.id == id) (f n) st.nodes }

/-- Replace the channel with the given scid (mutation of the found object). -/
def modifyChan (st : RoutingState) (scid : Nat) (f : Chan → Chan) :
    RoutingState :=
  match get_channel st scid with
  | none => st
  | some c => { st with chanmap := replaceFirstBy (fun x => x.scid == scid) (f c) st.chanmap }

/-- Index of the half-edge and endpoint slot belonging to node `nid`
(half_chan_from / pointer comparison with chan->nodes). -/
def halfChanFrom (nid : Nat) (c : Chan) : Nat :=
  if c.node0 = nid then 0 else 1

/-- Index of the half-edge that forwards *to* node `nid`, i.e. the slot of the
other endpoint (half_chan_to); bfg uses chan->nodes[idx] as the relaxation
source. -/
def halfChanTo (nid : Nat) (c : Chan) : Nat :=
  if c.node1 = nid then 0 else 1

/-- chan->half[idx]. -/
def halfOf (c : Chan) (idx : Nat) : HalfChan :=
  if idx = 0 then c.half0 else c.half1

/-- Write chan->half[idx]. -/
def setHalf (c : Chan) (idx : Nat) (h : HalfChan) : Chan :=
  if idx = 0 then { c with half0 := h } else { c with half1 := h }

/-- chan->nodes[idx]->id. -/
def nodeIdAt (c : Chan) (idx : Nat) : Nat :=
  if idx = 0 then c.node0 else c.node1

/-- other_node(n, chan): the endpoint that is not `nid`. -/
def other_node (nid : Nat) (c : Chan) : Nat :=
  if c.node0 = nid then c.node1 else c.node0

/-- new_node: fresh node with empty channel array; last_timestamp starts
at -1. -/
def newNodeRec (id : Nat) : Node :=
  { id := id, chans := [], alias_bytes := none, node_announcement := none,
    announcement_idx := 0, last_timestamp := -1, addresses := [],
    rgb_color := [] }

/-- init_half_chan: inactive, no update seen; last_timestamp is set halfway
to prune time so any real update is newer and absence of updates prunes. -/
def init_half_chan (env : Env) (prune_timeout : Nat) (idx : Nat) : HalfChan :=
  { channel_update := none, channel_update_msgidx := 0, base_fee := 0,
    proportional_fee := 0, delay := 0, htlc_minimum_msat := 0, flags := idx,
    active := false,
    last_timestamp := env.now - (prune_timeout / 2 : Nat),
    unroutable_until := 0 }

/-- new_chan: create endpoints on demand, canonicalize endpoint order
(pubkey_idx puts the numerically smaller pubkey at slot 0), link the channel
into both endpoints' arrays (n2 first, as in the source) and register the
scid in the channel map. -/
def new_chan (env : Env) (st : RoutingState) (scid id1 id2 : Nat) :
    RoutingState :=
  let n1idx : Nat := if id1 > id2 then 1 else 0
  let st := if (get_node st id1).isSome then st
            else { st with nodes := st.nodes ++ [newNodeRec id1] }
  let st := if (get_node st id2).isSome then st
            else { st with nodes := st.nodes ++ [newNodeRec id2] }
  let nodeA := if n1idx = 0 then id1 else id2
  let nodeB := if n1idx = 0 then id2 else id1
  let chan : Chan :=
    { scid := scid, node0 := nodeA, node1 := nodeB, public := false,
      satoshis := 0,
      half0 := init_half_chan env st.prune_timeout 0,
      half1 := init_half_chan env st.prune_timeout 1,
      channel_announcement := none, channel_announce_msgidx := 0 }
  let st := modifyNode st id2 (fun n => { n with chans := n.chans ++ [scid] })
  let st := modifyNode st id1 (fun n => { n with chans := n.chans ++ [scid] })
  { st with chanmap := st.chanmap ++ [chan] }

/-- remove_channel_from_array: drop the channel from one endpoint's array. -/
def unlinkChan (st : RoutingState) (nid scid : Nat) : RoutingState :=
  modifyNode st nid
    (fun n => { n with chans := eraseFirstBy (fun s => s == scid) n.chans })

/-- Free a node whose channel array became empty (the tal_free of an
endpoint at the end of destroy_chan). -/
def gcNode (st : RoutingState) (nid : Nat) : RoutingState :=
  match get_node st nid with
  | some n =>
    if n.chans = [] then
      { st with nodes := eraseFirstBy (fun m => m.id == nid) st.nodes }
    else st
  | none => st

/-- destroy_chan: unlink the channel from both endpoints' arrays, delete it
from the scid map, and free endpoints whose channel array became empty. -/
def destroy_chan (st : RoutingState) (scid : Nat) : RoutingState :=
  match get_channel st scid with
  | none => st
  | some c =>
    let st := unlinkChan st c.node0 scid
    let st := unlinkChan st c.node1 scid
    let st := { st with chanmap := eraseFirstBy (fun x => x.scid == scid) st.chanmap }
    let st := gcNode st c.node0
    gcNode st c.node1

/-! ### Policy application (set_connection_values, handle_channel_update) -/

/-- set_connection_values: write the policy of one half-edge, clear the
temporary unroutable mark, and force `active = false` when the proportional
fee would overflow the fee computation. -/
def set_connection_values (c : Chan) (idx : Nat) (base_fee : Nat)
    (proportional_fee : Nat) (delay : Nat) (active : Bool) (timestamp : Nat)
    (htlc_minimum_msat : Nat) : Chan :=
  let h := halfOf c idx
  let h := { h with delay := delay, htlc_minimum_msat := htlc_minimum_msat,
                    base_fee := base_fee, proportional_fee := proportional_fee,
                    active := active, last_timestamp := (timestamp : Int),
                    unroutable_until := 0 }
  let h := if MAX_PROPORTIONAL_FEE ≤ h.proportional_fee then
             { h with active := false }
           else h
  setHalf c idx h

/-- Deferred update slot of a pending announcement, by direction. -/
def pendingUpdate (p : PendingCAnn) (dir : Nat) : Option (List Nat) :=
  if dir = 0 then p.updates0 else p.updates1

/-- Buffered timestamp of a deferred update slot, by direction. -/
def pendingTs (p : PendingCAnn) (dir : Nat) : Nat :=
  if dir = 0 then p.update_timestamps0 else p.update_timestamps1

/-- update_pending: buffer a channel_update on a pending announcement,
only ever replacing the slot with strictly newer updates. -/
def update_pending (p : PendingCAnn) (timestamp : Nat) (update : List Nat)
    (direction : Nat) : PendingCAnn :=
  if pendingTs p direction < timestamp then
    if direction = 0 then
      { p with updates0 := some update, update_timestamps0 := timestamp }
    else
      { p with updates1 := some update, update_timestamps1 := timestamp }
  else p

/-- find_pending_cannouncement. -/
def find_pending_cannouncement (st : RoutingState) (scid : Nat) :
    Option PendingCAnn :=
  st.pending_cann.find? (fun p => p.short_channel_id == scid)

/-- The accept path of handle_channel_update once the channel is known and
not deferred: timestamp monotonicity check, signature check against the
sender endpoint's node key, set_connection_values, broadcast, byte
retention. -/
def applyChannelUpdate (env : Env) (st : RoutingState) (update : List Nat)
    (msg : CUpdMsg) (chan : Chan) : RoutingState :=
  let direction := msg.flags % 2
  let c := halfOf chan direction
  if (msg.timestamp : Int) ≤ c.last_timestamp then st
  else if !env.checkCUSig (nodeIdAt chan direction) update then st
  else
    let chan := set_connection_values chan direction msg.fee_base_msat
      msg.fee_proportional_millionths msg.expiry
      (msg.flags &&& ROUTING_FLAGS_DISABLED == 0) msg.timestamp
      msg.htlc_minimum_msat
    let h := halfOf chan direction
    let res := replace_broadcast st.broadcasts h.channel_update_msgidx
      WIRE_CHANNEL_UPDATE [msg.short_channel_id, direction] update
    let chan := setHalf chan direction
      { h with channel_update_msgidx := res.2.1, channel_update := some update }
    { st with
      chanmap := replaceFirstBy (fun x => x.scid == msg.short_channel_id) chan st.chanmap,
      broadcasts := res.1 }

/-- handle_channel_update: parse, chain check, dispatch to the pending
buffer (when the channel is unknown or not yet public and a matching
announcement is pending) or to the known channel's half-edge. -/
def handle_channel_update (env : Env) (st : RoutingState) (update : List Nat) :
    RoutingState :=
  match env.parseCU update with
  | none => st
  | some msg =>
    let direction := msg.flags % 2
    if msg.chain_hash ≠ st.chain_hash then st
    else
      match get_channel st msg.short_channel_id with
      | none =>
        match find_pending_cannouncement st msg.short_channel_id with
        | some p =>
          let pend := replaceFirstBy
            (fun q => q.short_channel_id == msg.short_channel_id)
            (update_pending p msg.timestamp update direction) st.pending_cann
          { st with pending_cann := pend }
        | none => st
      | some chan =>
        if !chan.public then
          match find_pending_cannouncement st msg.short_channel_id with
          | some p =>
            let pend := replaceFirstBy
              (fun q => q.short_channel_id == msg.short_channel_id)
              (update_pending p msg.timestamp update direction) st.pending_cann
            { st with pending_cann := pend }
          | none => applyChannelUpdate env st update msg chan
        else applyChannelUpdate env st update msg chan

/-- find? on the pending node announcement map. -/
def find_pending_node_announce (st : RoutingState) (nodeid : Nat) :
    Option PendingNAnn :=
  st.pending_node_map.find? (fun p => p.nodeid == nodeid)

/-- handle_node_announcement: parse, feature and signature checks, then
either buffer on the pending slot (node unknown but its channel
announcement is in flight), drop (orphan or outdated), or apply: addresses,
alias, rgb, timestamp, retained bytes, broadcast. -/
def handle_node_announcement (env : Env) (st : RoutingState)
    (node_ann : List Nat) : RoutingState :=
  match env.parseNA node_ann with
  | none => st
  | some msg =>
    if env.unsupportedFeatures msg.features then st
    else if !env.checkNASig node_ann then st
    else
      match get_node st msg.node_id, find_pending_node_announce st msg.node_id with
      | none, some pna =>
        if pna.timestamp < msg.timestamp then
          let pna := { pna with timestamp := msg.timestamp,
                                node_announcement := some node_ann }
          let pend := replaceFirstBy (fun q => q.nodeid == msg.node_id) pna
            st.pending_node_map
          { st with pending_node_map := pend }
        else st
      | none, none => st
      | some node, _ =>
        if (msg.timestamp : Int) ≤ node.last_timestamp then st
        else
          match env.readAddresses msg.addresses with
          | none => st
          | some wireaddrs =>
            let res := replace_broadcast st.broadcasts node.announcement_idx
              WIRE_NODE_ANNOUNCEMENT [msg.node_id] node_ann
            let node := { node with
              addresses := wireaddrs,
              last_timestamp := (msg.timestamp : Int),
              rgb_color := msg.rgb_color,
              alias_bytes := some msg.alias_bytes,
              announcement_idx := res.2.1,
              node_announcement := some node_ann }
            { st with
              nodes := replaceFirstBy (fun m => m.id == msg.node_id) node st.nodes,
              broadcasts := res.1 }

/-! ### Channel announcement ingest and chain resolution -/

/-- add_pending_node_announcement: an empty parking slot (timestamp 0). -/
def add_pending_node_announcement (st : RoutingState) (nodeid : Nat) :
    RoutingState :=
  { st with pending_node_map :=
      st.pending_node_map ++ [⟨nodeid, none, 0⟩] }

/-- handle_channel_announcement: parse, refuse on an existing public channel
or an existing pending announcement, feature / chain / signature checks,
then create the pending entry with two parking slots and return the scid
for the chain lookup. -/
def handle_channel_announcement (env : Env) (st : RoutingState)
    (announce : List Nat) : RoutingState × Option Nat :=
  match env.parseCA announce with
  | none => (st, none)
  | some msg =>
    let knownPublic := match get_channel st msg.short_channel_id with
      | some c => c.public
      | none => false
    if knownPublic then (st, none)
    else if (find_pending_cannouncement st msg.short_channel_id).isSome then
      (st, none)
    else if env.unsupportedFeatures msg.features then (st, none)
    else if msg.chain_hash ≠ st.chain_hash then (st, none)
    else if !env.checkCAnnSig announce then (st, none)
    else
      let p : PendingCAnn :=
        { short_channel_id := msg.short_channel_id,
          node_id_1 := msg.node_id_1, node_id_2 := msg.node_id_2,
          bitcoin_key_1 := msg.bitcoin_key_1,
          bitcoin_key_2 := msg.bitcoin_key_2,
          announce := announce, updates0 := none, updates1 := none,
          update_timestamps0 := 0, update_timestamps1 := 0 }
      let st := add_pending_node_announcement st msg.node_id_1
      let st := add_pending_node_announcement st msg.node_id_2
      ({ st with pending_cann := st.pending_cann ++ [p] },
       some msg.short_channel_id)

/-- process_pending_node_announcement: replay a buffered node_announcement
(if any) and drop the parking slot. -/
def process_pending_node_announcement (env : Env) (st : RoutingState)
    (nodeid : Nat) : RoutingState :=
  match find_pending_node_announce st nodeid with
  | none => st
  | some pna =>
    let st := match pna.node_announcement with
      | some ann => handle_node_announcement env st ann
      | none => st
    { st with pending_node_map :=
        eraseFirstBy (fun q => q.nodeid == nodeid) st.pending_node_map }

/-- Drop the pending announcement for an scid
(tal_free of the pending entry). -/
def erasePendingCAnn (st : RoutingState) (scid : Nat) : RoutingState :=
  { st with pending_cann :=
      eraseFirstBy (fun p => p.short_channel_id == scid) st.pending_cann }

/-- handle_pending_cannouncement: the chain oracle answered.  Spent output
or script mismatch discards the pending entry; otherwise the channel is
created (if needed), made public, broadcast, the deferred updates are
replayed in direction order, the parked node announcements are replayed,
and the boolean reports whether an endpoint is the local node. -/
def handle_pending_cannouncement (env : Env) (st : RoutingState) (scid : Nat)
    (satoshis : Nat) (outscript : List Nat) : RoutingState × Bool :=
  match find_pending_cannouncement st scid with
  | none => (st, false)
  | some pending =>
    if outscript.length = 0 then (erasePendingCAnn st scid, false)
    else if env.expectedScript pending.bitcoin_key_1 pending.bitcoin_key_2
            ≠ outscript then
      (erasePendingCAnn st scid, false)
    else
      let st := if (get_channel st scid).isSome then st
                else new_chan env st scid pending.node_id_1 pending.node_id_2
      match get_channel st scid with
      | none => (st, false)
      | some chan =>
        let res := replace_broadcast st.broadcasts
          chan.channel_announce_msgidx WIRE_CHANNEL_ANNOUNCEMENT [scid]
          pending.announce
        let chan := { chan with public := true, satoshis := satoshis,
                                channel_announcement := some pending.announce,
                                channel_announce_msgidx := res.2.1 }
        let st := { st with
          chanmap := replaceFirstBy (fun x => x.scid == scid) chan st.chanmap,
          broadcasts := res.1 }
        let locl := pending.node_id_1 == st.local_id
                    || pending.node_id_2 == st.local_id
        let st := match pending.updates0 with
          | some u => handle_channel_update env st u
          | none => st
        let st := match pending.updates1 with
          | some u => handle_channel_update env st u
          | none => st
        let st := process_pending_node_announcement env st pending.node_id_1
        let st := process_pending_node_announcement env st pending.node_id_2
        (erasePendingCAnn st scid, locl)

/-! ### Policy engine: routing failures, unroutable marks, pruning -/

/-- routing_failure_channel_out: on the erring node's outgoing half-edge,
either mark it temporarily unroutable for 20 seconds, or (PERM) hand the
channel over for destruction; destruction happens at the end of
routing_failure, so the returned victim list is collected here. -/
def routing_failure_channel_out (env : Env) (st : RoutingState) (nodeid : Nat)
    (failcode : Nat) (c : Chan) : RoutingState × List Nat :=
  if failcode &&& PERM = 0 then
    let idx := halfChanFrom nodeid c
    let h := halfOf c idx
    let c := setHalf c idx { h with unroutable_until := env.now + 20 }
    ({ st with chanmap := replaceFirstBy (fun x => x.scid == c.scid) c st.chanmap },
     [])
  else (st, [c.scid])

/-- routing_failure: dispatch the failure to every channel of the erring
node (NODE bit) or to the single channel identified by the scid; then, if
an UPDATE failcode carries a channel_update, feed it to
handle_channel_update after the deactivation; finally free the channels
collected for destruction. -/
def routing_failure (env : Env) (st : RoutingState) (erring_node : Nat)
    (scid : Nat) (failcode : Nat) (channel_update : List Nat) :
    RoutingState :=
  match get_node st erring_node with
  | none => st
  | some node =>
    let step :=
      if failcode &&& NODE ≠ 0 then
        node.chans.foldl
          (fun (acc : RoutingState × List Nat) cscid =>
            match get_channel acc.1 cscid with
            | none => acc
            | some c =>
              let out := routing_failure_channel_out env acc.1 erring_node
                failcode c
              (out.1, acc.2 ++ out.2))
          (st, [])
      else
        match get_channel st scid with
        | none => (st, [])
        | some c =>
          if c.node0 ≠ erring_node ∧ c.node1 ≠ erring_node then (st, [])
          else routing_failure_channel_out env st erring_node failcode c
    let st := step.1
    let st :=
      if failcode &&& UPDATE ≠ 0 then
        if channel_update.length = 0 then st
        else if env.peekType channel_update ≠ WIRE_CHANNEL_UPDATE then st
        else handle_channel_update env st channel_update
      else st
    step.2.foldl (fun s v => destroy_chan s v) st

/-- mark_channel_unroutable: 20-second penalty on both half-edges. -/
def mark_channel_unroutable (env : Env) (st : RoutingState) (channel : Nat) :
    RoutingState :=
  match get_channel st channel with
  | none => st
  | some c =>
    let c := { c with
      half0 := { c.half0 with unroutable_until := env.now + 20 },
      half1 := { c.half1 with unroutable_until := env.now + 20 } }
    { st with chanmap := replaceFirstBy (fun x => x.scid == channel) c st.chanmap }

/-- route_prune: collect every public channel whose two half-edges are both
older than the highwater mark, then destroy them after the iteration. -/
def route_prune (env : Env) (st : RoutingState) : RoutingState :=
  let highwater : Int := env.now - (st.prune_timeout : Int)
  let pruned := st.chanmap.filter
    (fun c => c.public && decide (c.half0.last_timestamp < highwater)
                       && decide (c.half1.last_timestamp < highwater))
  pruned.foldl (fun s c => destroy_chan s c.scid) st

/-! ### Path finder (clear_bfg, connection_fee, risk_fee, bfg_one_edge,
find_route, get_route)

The per-node scratch array `bfg[0..ROUTING_MAX_HOPS]` is threaded through
the search explicitly as a map from node id and hop count to an entry;
clear_bfg at the start of every query makes this equivalent to the scratch
being stored on the nodes.  C doubles are exact rationals here, and the
double-to-u64 assignments of `fee` and of `risk_fee` are floors. -/

/-- One bfg scratch entry: total msatoshi to inject, accumulated risk, and
the channel (by scid) the best path of this length leaves through. -/
structure BfgEntry where
  total : Nat
  risk : Nat
  prev : Option Nat
deriving DecidableEq, Repr

/-- The scratch of all nodes, as a stack of point writes over the cleared
array; the newest write of a slot wins.  (A first-order structure instead
of a function so that the search evaluates efficiently.) -/
abbrev Bfg := List ((Nat × Nat) × BfgEntry)

/-- clear_bfg: every entry becomes (INFINITE, 0, unset). -/
def clearedBfg : Bfg := []

/-- Point update of the scratch. -/
def bfgSet (b : Bfg) (n h : Nat) (e : BfgEntry) : Bfg :=
  ((n, h), e) :: b

/-- Read one scratch slot: the newest write, or the cleared value. -/
def bfgGet (b : Bfg) (n h : Nat) : BfgEntry :=
  match b.find? (fun x => x.1 == (n, h)) with
  | some x => x.2
  | none => ⟨INFINITE, 0, none⟩

/-- connection_fee: base_fee plus the truncated proportional part. -/
def connection_fee (c : HalfChan) (msatoshi : Nat) : Nat :=
  c.base_fee + c.proportional_fee * msatoshi / 1000000

/-- Multiply a u64 by a C double held as an exact rational and convert the
result back to u64: the floor of `a * s`, written through the numerator and
denominator so that it evaluates (the denominator of a `Rat` is positive,
so `(a * s.num).fdiv s.den` is exactly the floor). -/
def mulRatFloor (a : Nat) (s : ℚ) : Nat :=
  (((a : Int) * s.num).fdiv (s.den : Int)).toNat

/-- risk_fee: a tiny constant to prefer shorter routes, plus the amount at
risk scaled by delay and the per-block risk factor (a C double). -/
def risk_fee (amount : Nat) (delay : Nat) (riskfactor : ℚ) : Nat :=
  1 + mulRatFloor (amount * delay) riskfactor

/-- hc_is_routable: the half-edge is active and not under a temporary
unroutable penalty. -/
def hc_is_routable (hc : HalfChan) (now : Int) : Bool :=
  hc.active && decide (hc.unroutable_until < now)

/-- The fuzz fee scale of a channel: 1 when fuzz is 0 (the C multiplies by
the double 1.0, exact for fees below 2^53), otherwise
1 + 2*fuzz*rand - fuzz with rand = siphash(seed, scid) / UINT64_MAX. -/
def feeScale (env : Env) (fuzz : ℚ) (scid : Nat) : ℚ :=
  if fuzz = 0 then 1
  else 1 + 2 * fuzz * (env.siphashScid scid : ℚ) / ((2 ^ 64 - 1 : Nat) : ℚ) - fuzz

/-- bfg_one_edge: relax the half-edge `chan.half[idx]` (which forwards from
chan.nodes[idx] to `n`) at every path length, in place. -/
def bfg_one_edge (env : Env) (riskfactor fuzz : ℚ) (n : Nat) (c : Chan)
    (idx : Nat) (b : Bfg) : Bfg :=
  let fs := feeScale env fuzz c.scid
  let hc := halfOf c idx
  (List.range ROUTING_MAX_HOPS).foldl
    (fun b h =>
      let e := bfgGet b n h
      if e.total = INFINITE then b
      else
        let fee : Nat := mulRatFloor (connection_fee hc e.total) fs
        let risk : Nat := e.risk + risk_fee (e.total + fee) hc.delay riskfactor
        if MAX_MSATOSHI ≤ e.total + fee + risk then b
        else
          let src := nodeIdAt c idx
          if e.total + fee + risk
              < (bfgGet b src (h + 1)).total + (bfgGet b src (h + 1)).risk then
            bfgSet b src (h + 1) ⟨e.total + fee, risk, some c.scid⟩
          else b)
    b

/-- One full pass over every node and every incident half-edge
(the body of the runs loop of find_route). -/
def bfgRun (env : Env) (st : RoutingState) (riskfactor fuzz : ℚ) (b : Bfg) :
    Bfg :=
  st.nodes.foldl
    (fun b n =>
      n.chans.foldl
        (fun b cscid =>
          match get_channel st cscid with
          | none => b
          | some chan =>
            let idx := halfChanTo n.id chan
            if hc_is_routable (halfOf chan idx) env.now then
              bfg_one_edge env riskfactor fuzz n.id chan idx b
            else b)
        b)
    b

/-- Lay out the route by following the prev channels from the query source
for `h` hops; the final node must be the seeded node (the assert in the
source).  A missing prev or channel cannot happen for a finite entry. -/
def layoutRoute (st : RoutingState) (b : Bfg) :
    Nat → Nat → Nat → Option (List Nat)
  | 0, nid, seedid => if nid = seedid then some [] else none
  | h + 1, nid, seedid =>
    match (bfgGet b nid (h + 1)).prev with
    | none => none
    | some cscid =>
      match get_channel st cscid with
      | none => none
      | some c =>
        (layoutRoute st b h (other_node nid c) seedid).map (cscid :: ·)

/-- Tail of find_route after the relaxation runs: select the best hop
count, detect the no-route case, and lay out the route. -/
def find_route_finish (st : RoutingState) (bfin : Bfg) (dstid srcid : Nat) :
    Option (List Nat) :=
  let best := (List.range ROUTING_MAX_HOPS).foldl
    (fun best i =>
      if (bfgGet bfin dstid (i + 1)).total
          < (bfgGet bfin dstid best).total then i + 1
      else best)
    0
  if INFINITE ≤ (bfgGet bfin dstid best).total then none
  else layoutRoute st bfin best dstid srcid

/-- find_route: the backwards length-stratified Bellman-Ford.  `fromN` is
the payment source (the code's `dst`), `toN` the payment destination (the
code's `src`, seeded with the amount at hop count 0).  Returns the channels
of the best route, or none.  The fee out-parameter of the C function is not
returned: its only caller ignores it. -/
def find_route (env : Env) (st : RoutingState) (fromN toN : Nat)
    (msatoshi : Nat) (riskfactor fuzz : ℚ) : Option (List Nat) :=
  match get_node st toN with
  | none => none
  | some src =>
    match get_node st fromN with
    | none => none
    | some dst =>
      if dst.id = src.id then none
      else if MAX_MSATOSHI ≤ msatoshi then none
      else
        let b0 := bfgSet clearedBfg src.id 0 ⟨msatoshi, 0, none⟩
        let bfin := (List.range ROUTING_MAX_HOPS).foldl
          (fun b _ => bfgRun env st riskfactor fuzz b) b0
        find_route_finish st bfin dst.id src.id

/-- One hop of a materialized route (struct route_hop): the channel, the
node the hop forwards to, the amount to forward and the outgoing cltv. -/
structure RouteHop where
  channel_id : Nat
  nodeid : Nat
  amount : Nat
  delay : Nat
deriving DecidableEq, Repr

/-- The materialization loop of get_route: walk the route backwards from
the destination, accumulating fees and delays; each processed channel is
prepended, so the accumulator list is the materialized suffix of the route.
The C dereferences each channel pointer directly; a failing lookup is
unreachable there and yields none here. -/
def materializeHops (st : RoutingState) :
    List Nat → Nat × Nat × Nat × List RouteHop →
    Option (Nat × Nat × Nat × List RouteHop)
  | [], acc => some acc
  | cscid :: rest, (nid, amt, dly, hops) =>
    match get_channel st cscid with
    | none => none
    | some c =>
      let idx := halfChanTo nid c
      let hc := halfOf c idx
      materializeHops st rest
        (other_node nid c, amt + connection_fee hc amt, dly + hc.delay,
         ⟨cscid, nid, amt, dly⟩ :: hops)

/-- get_route: find a route and materialize the per-hop amounts and cltv
delays backwards from (msatoshi, final_cltv); the caller risk factor is
scaled to a per-block rate.  The final check that the walk ended at the
source is the assert of the source. -/
def get_route (env : Env) (st : RoutingState) (source destination : Nat)
    (msatoshi : Nat) (riskfactor : ℚ) (final_cltv : Nat) (fuzz : ℚ) :
    Option (List RouteHop) :=
  match find_route env st source destination msatoshi
      (riskfactor / (BLOCKS_PER_YEAR : ℚ) / 10000) fuzz with
  | none => none
  | some route =>
    match materializeHops st route.reverse (destination, msatoshi, final_cltv, []) with
    | none => none
    | some (nid, _, _, hops) => if nid = source then some hops else none

/-- A routable path statement: starting at `a`, each listed channel exists,
is incident to the walker, and its half-edge out of the walker is routable;
the walk ends at `target`.  This is the notion of an existing route used to
judge the path finder. -/
def routablePath (st : RoutingState) (now : Int) :
    Nat → List Nat → Nat → Bool
  | a, [], target => a == target
  | a, cscid :: rest, target =>
    match get_channel st cscid with
    | none => false
    | some c =>
      (a == c.node0 || a == c.node1)
      && hc_is_routable (halfOf c (halfChanFrom a c)) now
      && routablePath st now (other_node a c) rest target

/-! ### Top-level events

Each inbound interface of the component is one event; a reachable state is
the fold of a trace over the freshly initialised state. -/

/-- The inbound interface of the routing state. -/
inductive GossipEvent where
  | cann (bytes : List Nat)
  | resolve (scid : Nat) (satoshis : Nat) (outscript : List Nat)
  | cupd (bytes : List Nat)
  | nann (bytes : List Nat)
  | rfail (erring : Nat) (scid : Nat) (failcode : Nat) (cu : List Nat)
  | markun (scid : Nat)
  | prune
deriving DecidableEq, Repr

/-- Apply one inbound event. -/
def applyEvent (env : Env) (st : RoutingState) : GossipEvent → RoutingState
  | .cann b => (handle_channel_announcement env st b).1
  | .resolve s sat os => (handle_pending_cannouncement env st s sat os).1
  | .cupd b => handle_channel_update env st b
  | .nann b => handle_node_announcement env st b
  | .rfail e s f u => routing_failure env st e s f u
  | .markun s => mark_channel_unroutable env st s
  | .prune => route_prune env st

/-- Run a trace from the initial state. -/
def runTrace (env : Env) (chain_hash local_id prune_timeout : Nat)
    (tr : List GossipEvent) : RoutingState :=
  tr.foldl (applyEvent env) (new_routing_state chain_hash local_id prune_timeout)

/-! ### Definitions supporting the verification: the accept-path channel,
the path-finder scratch invariant, and concrete example scenarios -/

set_option maxRecDepth 16000

/-- The channel written back by the accept path of applyChannelUpdate. -/
def acceptedChan (update : List Nat) (msg : CUpdMsg) (c : Chan)
    (bidx : Nat) : Chan :=
  let direction := msg.flags % 2
  let chan := set_connection_values c direction msg.fee_base_msat
    msg.fee_proportional_millionths msg.expiry
    (msg.flags &&& ROUTING_FLAGS_DISABLED == 0) msg.timestamp
    msg.htlc_minimum_msat
  let h := halfOf chan direction
  setHalf chan direction
    { h with channel_update_msgidx := bidx, channel_update := some update }

/-- The scratch invariant of the search: every total is bounded by the
cleared value, and every finite slot at level 0 is the seeded node while a
finite slot at level h+1 records a channel that exists, is incident to the
slot's node, is routable out of it, and continues to a finite slot one
level down at the other endpoint. -/
def bfgPrevOk (env : Env) (st : RoutingState) (seedid : Nat) (b : Bfg) :
    Prop :=
  (∀ n h, (bfgGet b n h).total ≤ INFINITE)
  ∧ ∀ n h, (bfgGet b n h).total < INFINITE →
      (h = 0 → n = seedid)
      ∧ ∀ h2, h = h2 + 1 →
          ∃ cscid c, (bfgGet b n h).prev = some cscid
            ∧ get_channel st cscid = some c
            ∧ (n = c.node0 ∨ n = c.node1)
            ∧ hc_is_routable (halfOf c (halfChanFrom n c)) env.now = true
            ∧ (bfgGet b (other_node n c) h2).total < INFINITE

def msgU5 : CUpdMsg :=
  { chain_hash := 7, short_channel_id := 5, timestamp := 60, flags := 0,
    expiry := 6, htlc_minimum_msat := 0, fee_base_msat := 2,
    fee_proportional_millionths := 3 }

def msgU10 : CUpdMsg := { msgU5 with short_channel_id := 10 }

def msgOld5 : CUpdMsg := { msgU5 with timestamp := 40 }

def msgBig5 : CUpdMsg :=
  { msgU5 with fee_proportional_millionths := MAX_PROPORTIONAL_FEE }

def msgP20 : CUpdMsg := { msgU5 with short_channel_id := 20 }

/-- Concrete oracle environment for the examples. -/
def envC : Env :=
  { now := 100,
    parseCA := fun _ => none,
    parseCU := fun b =>
      if b = [6] then some msgU5
      else if b = [7] then some msgU10
      else if b = [3] then some msgOld5
      else if b = [8] then some msgBig5
      else if b = [4] then some msgP20
      else none,
    parseNA := fun _ => none,
    checkCAnnSig := fun _ => false,
    checkCUSig := fun _ _ => true,
    checkNASig := fun _ => false,
    unsupportedFeatures := fun _ => false,
    expectedScript := fun _ _ => [9, 9],
    readAddresses := fun _ => none,
    peekType := fun _ => WIRE_CHANNEL_UPDATE,
    siphashScid := fun _ => 0 }

def envB : Env := { envC with checkCUSig := fun _ _ => false }

def hcA : HalfChan :=
  { channel_update := none, channel_update_msgidx := 0, base_fee := 1000,
    proportional_fee := 100, delay := 10, htlc_minimum_msat := 0, flags := 0,
    active := true, last_timestamp := 50, unroutable_until := 0 }

def hcI : HalfChan := { hcA with active := false, flags := 1 }

def hcZ : HalfChan :=
  { hcA with base_fee := 0, proportional_fee := 0, delay := 0 }

def mkNode (i : Nat) (cs : List Nat) : Node :=
  { id := i, chans := cs, alias_bytes := none, node_announcement := none,
    announcement_idx := 0, last_timestamp := -1, addresses := [],
    rgb_color := [] }

def cX : Chan :=
  { scid := 5, node0 := 1, node1 := 2, public := true, satoshis := 1,
    half0 := hcZ, half1 := hcI, channel_announcement := none,
    channel_announce_msgidx := 0 }

def stX : RoutingState :=
  { nodes := [mkNode 1 [5], mkNode 2 [5]],
    chanmap := [cX], pending_cann := [], pending_node_map := [],
    broadcasts := ⟨[], 1⟩, chain_hash := 7, local_id := 1,
    prune_timeout := 1000 }

def stS : RoutingState := { stX with prune_timeout := 10 }

/-- A non-public fresh channel next to the stale public one, for the
route_prune example. -/
def cY : Chan := { cX with scid := 6, public := false }

def stS2 : RoutingState :=
  { stX with nodes := [mkNode 1 [5, 6], mkNode 2 [5, 6]],
             chanmap := [cX, cY], prune_timeout := 10 }

def c1T : Chan :=
  { scid := 10, node0 := 1, node1 := 2, public := true, satoshis := 100000,
    half0 := hcA, half1 := hcI, channel_announcement := none,
    channel_announce_msgidx := 0 }

def c2T : Chan :=
  { scid := 11, node0 := 2, node1 := 3, public := true, satoshis := 100000,
    half0 := hcA, half1 := hcI, channel_announcement := none,
    channel_announce_msgidx := 0 }

def stT : RoutingState :=
  { nodes := [mkNode 1 [10], mkNode 2 [10, 11], mkNode 3 [11]],
    chanmap := [c1T, c2T], pending_cann := [], pending_node_map := [],
    broadcasts := ⟨[], 1⟩, chain_hash := 7, local_id := 1,
    prune_timeout := 1000 }

def p8 : PendingCAnn :=
  { short_channel_id := 20, node_id_1 := 1, node_id_2 := 2,
    bitcoin_key_1 := 11, bitcoin_key_2 := 12, announce := [1],
    updates0 := none, updates1 := none, update_timestamps0 := 0,
    update_timestamps1 := 0 }

def stP : RoutingState :=
  { nodes := [], chanmap := [], pending_cann := [p8],
    pending_node_map := [], broadcasts := ⟨[], 1⟩, chain_hash := 7,
    local_id := 1, prune_timeout := 1000 }

def b0S : Bfg := bfgSet clearedBfg 2 0 ⟨1000, 0, none⟩

def b1S : Bfg := bfgSet b0S 1 1 ⟨1000, 1, some 5⟩

def b0F : Bfg := bfgSet clearedBfg 2 0 ⟨2 ^ 40 - 1, 0, none⟩

/-! ### Theorems -/

/-! ### Helper lemmas about the list primitives -/

theorem replaceFirstBy_find?_same {α : Type} {p : α → Bool} {l : List α}
    {x a : α} (hl : l.find? p = some a) (hx : p x = true) :
    (replaceFirstBy p x l).find? p = some x := by
  induction l with
  | nil => simp [List.find?] at hl
  | cons b r ih =>
    by_cases hb : p b
    · unfold replaceFirstBy
      rw [if_pos hb]
      exact List.find?_cons_of_pos _ hx
    · unfold replaceFirstBy
      rw [if_neg hb, List.find?_cons_of_neg _ (by simp [hb])]
      rw [List.find?_cons_of_neg _ (by simp [hb])] at hl
      exact ih hl

theorem replaceFirstBy_find?_other {α : Type} {p q : α → Bool} {l : List α}
    {x : α} (hx : q x = false)
    (himp : ∀ a ∈ l, p a = true → q a = false) :
    (replaceFirstBy p x l).find? q = l.find? q := by
  induction l with
  | nil => rfl
  | cons b r ih =>
    by_cases hb : p b
    · unfold replaceFirstBy
      rw [if_pos hb]
      have hqb : q b = false := himp b (by simp) hb
      rw [List.find?_cons_of_neg _ (by simp [hx]),
          List.find?_cons_of_neg _ (by simp [hqb])]
    · unfold replaceFirstBy
      rw [if_neg hb]
      by_cases hqb : q b
      · rw [List.find?_cons_of_pos _ hqb, List.find?_cons_of_pos _ hqb]
      · rw [List.find?_cons_of_neg _ (by simp [hqb]),
            List.find?_cons_of_neg _ (by simp [hqb])]
        exact ih (fun a ha hpa => himp a (by simp [ha]) hpa)

theorem mem_eraseFirstBy {α : Type} {p : α → Bool} {l : List α} {a : α}
    (h : a ∈ eraseFirstBy p l) : a ∈ l := by
  induction l with
  | nil => simp [eraseFirstBy] at h
  | cons b r ih =>
    unfold eraseFirstBy at h
    by_cases hb : p b
    · rw [if_pos hb] at h
      exact List.mem_cons_of_mem _ h
    · rw [if_neg hb] at h
      rcases List.mem_cons.1 h with h | h
      · exact h ▸ List.mem_cons_self _ _
      · exact List.mem_cons_of_mem _ (ih h)

theorem foldl_fixed {α β : Type} (g : α → β → α) (c : α)
    (h : ∀ x, g c x = c) : ∀ l : List β, l.foldl g c = c := by
  intro l
  induction l with
  | nil => rfl
  | cons x xs ih => rw [List.foldl_cons, h x, ih]

/-! ### Small facts about channel field updates -/

theorem setHalf_scid (c : Chan) (i : Nat) (h : HalfChan) :
    (setHalf c i h).scid = c.scid := by
  unfold setHalf; split <;> rfl

theorem setHalf_node0 (c : Chan) (i : Nat) (h : HalfChan) :
    (setHalf c i h).node0 = c.node0 := by
  unfold setHalf; split <;> rfl

theorem setHalf_node1 (c : Chan) (i : Nat) (h : HalfChan) :
    (setHalf c i h).node1 = c.node1 := by
  unfold setHalf; split <;> rfl

theorem setHalf_public (c : Chan) (i : Nat) (h : HalfChan) :
    (setHalf c i h).public = c.public := by
  unfold setHalf; split <;> rfl

theorem halfOf_setHalf_same (c : Chan) (i : Nat) (h : HalfChan) :
    halfOf (setHalf c i h) i = h := by
  unfold setHalf halfOf
  by_cases hi : i = 0 <;> simp [hi]

theorem halfOf_setHalf_other (c : Chan) (i j : Nat) (h : HalfChan)
    (hi : i < 2) (hj : j < 2) (hij : i ≠ j) :
    halfOf (setHalf c i h) j = halfOf c j := by
  unfold setHalf halfOf
  interval_cases i <;> interval_cases j <;> simp_all

theorem set_connection_values_scid (c : Chan) (idx b p d : Nat) (a : Bool)
    (ts m : Nat) :
    (set_connection_values c idx b p d a ts m).scid = c.scid := by
  unfold set_connection_values
  exact setHalf_scid _ _ _

theorem set_connection_values_node0 (c : Chan) (idx b p d : Nat) (a : Bool)
    (ts m : Nat) :
    (set_connection_values c idx b p d a ts m).node0 = c.node0 := by
  unfold set_connection_values
  exact setHalf_node0 _ _ _

theorem set_connection_values_node1 (c : Chan) (idx b p d : Nat) (a : Bool)
    (ts m : Nat) :
    (set_connection_values c idx b p d a ts m).node1 = c.node1 := by
  unfold set_connection_values
  exact setHalf_node1 _ _ _

theorem set_connection_values_public (c : Chan) (idx b p d : Nat) (a : Bool)
    (ts m : Nat) :
    (set_connection_values c idx b p d a ts m).public = c.public := by
  unfold set_connection_values
  exact setHalf_public _ _ _

theorem halfOf_set_connection_values (c : Chan) (idx b p d : Nat) (a : Bool)
    (ts m : Nat) :
    halfOf (set_connection_values c idx b p d a ts m) idx =
      (let h0 := halfOf c idx
       let h1 : HalfChan :=
         { h0 with delay := d, htlc_minimum_msat := m, base_fee := b,
                   proportional_fee := p, active := a,
                   last_timestamp := (ts : Int), unroutable_until := 0 }
       if MAX_PROPORTIONAL_FEE ≤ p then { h1 with active := false } else h1) := by
  unfold set_connection_values
  rw [halfOf_setHalf_same]

/-! ### Branch reduction lemmas for handle_channel_update -/

theorem hcu_parse_none (env : Env) (st : RoutingState) (update : List Nat)
    (h : env.parseCU update = none) :
    handle_channel_update env st update = st := by
  unfold handle_channel_update
  rw [h]

theorem hcu_chain_ne (env : Env) (st : RoutingState) (update : List Nat)
    (msg : CUpdMsg) (hp : env.parseCU update = some msg)
    (h : msg.chain_hash ≠ st.chain_hash) :
    handle_channel_update env st update = st := by
  unfold handle_channel_update
  rw [hp]
  simp only [if_pos h]

theorem hcu_unknown (env : Env) (st : RoutingState) (update : List Nat)
    (msg : CUpdMsg) (hp : env.parseCU update = some msg)
    (hchain : msg.chain_hash = st.chain_hash)
    (hchan : get_channel st msg.short_channel_id = none)
    (hpend : find_pending_cannouncement st msg.short_channel_id = none) :
    handle_channel_update env st update = st := by
  unfold handle_channel_update
  rw [hp]
  simp only [hchain, ne_eq, not_true_eq_false, if_false, hchan, hpend]

theorem hcu_to_pending (env : Env) (st : RoutingState) (update : List Nat)
    (msg : CUpdMsg) (p : PendingCAnn) (hp : env.parseCU update = some msg)
    (hchain : msg.chain_hash = st.chain_hash)
    (hchan : get_channel st msg.short_channel_id = none
             ∨ ∃ c, get_channel st msg.short_channel_id = some c ∧ c.public = false)
    (hpend : find_pending_cannouncement st msg.short_channel_id = some p) :
    handle_channel_update env st update =
      { st with pending_cann :=
          (replaceFirstBy (fun q => q.short_channel_id == msg.short_channel_id)
            (update_pending p msg.timestamp update (msg.flags % 2))
            st.pending_cann) } := by
  unfold handle_channel_update
  rw [hp]
  simp only [hchain, ne_eq, not_true_eq_false, if_false]
  rcases hchan with hchan | ⟨c, hchan, hpub⟩
  · rw [hchan, hpend]
  · rw [hchan, hpend]
    simp [hpub]

theorem hcu_to_apply (env : Env) (st : RoutingState) (update : List Nat)
    (msg : CUpdMsg) (c : Chan) (hp : env.parseCU update = some msg)
    (hchain : msg.chain_hash = st.chain_hash)
    (hchan : get_channel st msg.short_channel_id = some c)
    (hdisp : c.public = true
             ∨ find_pending_cannouncement st msg.short_channel_id = none) :
    handle_channel_update env st update = applyChannelUpdate env st update msg c := by
  unfold handle_channel_update
  rw [hp]
  simp only [hchain, ne_eq, not_true_eq_false, if_false, hchan]
  by_cases hpub : c.public
  · simp [hpub]
  · rcases hdisp with hdisp | hdisp
    · exact absurd hdisp hpub
    · simp [hpub, hdisp]

/-! ### Branch reduction lemmas for applyChannelUpdate -/

theorem acu_reject_ts (env : Env) (st : RoutingState) (update : List Nat)
    (msg : CUpdMsg) (c : Chan)
    (hts : (msg.timestamp : Int) ≤ (halfOf c (msg.flags % 2)).last_timestamp) :
    applyChannelUpdate env st update msg c = st := by
  unfold applyChannelUpdate
  rw [if_pos hts]

theorem acu_reject_sig (env : Env) (st : RoutingState) (update : List Nat)
    (msg : CUpdMsg) (c : Chan)
    (hts : (halfOf c (msg.flags % 2)).last_timestamp < (msg.timestamp : Int))
    (hsig : env.checkCUSig (nodeIdAt c (msg.flags % 2)) update = false) :
    applyChannelUpdate env st update msg c = st := by
  unfold applyChannelUpdate
  rw [if_neg (by omega), if_pos (by simp [hsig])]

theorem acu_accept (env : Env) (st : RoutingState) (update : List Nat)
    (msg : CUpdMsg) (c : Chan)
    (hts : (halfOf c (msg.flags % 2)).last_timestamp < (msg.timestamp : Int))
    (hsig : env.checkCUSig (nodeIdAt c (msg.flags % 2)) update = true) :
    applyChannelUpdate env st update msg c =
      { st with
        chanmap := (replaceFirstBy (fun x => x.scid == msg.short_channel_id)
          (acceptedChan update msg c st.broadcasts.next_index) st.chanmap),
        broadcasts :=
          (replace_broadcast st.broadcasts
            (halfOf (set_connection_values c (msg.flags % 2) msg.fee_base_msat
              msg.fee_proportional_millionths msg.expiry
              (msg.flags &&& ROUTING_FLAGS_DISABLED == 0) msg.timestamp
              msg.htlc_minimum_msat) (msg.flags % 2)).channel_update_msgidx
            WIRE_CHANNEL_UPDATE [msg.short_channel_id, msg.flags % 2]
            update).1 } := by
  unfold applyChannelUpdate
  rw [if_neg (by omega), if_neg (by simp [hsig])]
  rfl

theorem update_pending_scid (p : PendingCAnn) (ts : Nat) (u : List Nat)
    (d : Nat) :
    (update_pending p ts u d).short_channel_id = p.short_channel_id := by
  unfold update_pending
  split
  · split <;> rfl
  · rfl

theorem acceptedChan_scid (update : List Nat) (msg : CUpdMsg) (c : Chan)
    (b : Nat) : (acceptedChan update msg c b).scid = c.scid := by
  unfold acceptedChan
  rw [setHalf_scid, set_connection_values_scid]

theorem acceptedChan_node0 (update : List Nat) (msg : CUpdMsg) (c : Chan)
    (b : Nat) : (acceptedChan update msg c b).node0 = c.node0 := by
  unfold acceptedChan
  rw [setHalf_node0, set_connection_values_node0]

theorem acceptedChan_node1 (update : List Nat) (msg : CUpdMsg) (c : Chan)
    (b : Nat) : (acceptedChan update msg c b).node1 = c.node1 := by
  unfold acceptedChan
  rw [setHalf_node1, set_connection_values_node1]

theorem acceptedChan_public (update : List Nat) (msg : CUpdMsg) (c : Chan)
    (b : Nat) : (acceptedChan update msg c b).public = c.public := by
  unfold acceptedChan
  rw [setHalf_public, set_connection_values_public]

theorem acceptedChan_half_self (update : List Nat) (msg : CUpdMsg) (c : Chan)
    (b : Nat) :
    halfOf (acceptedChan update msg c b) (msg.flags % 2) =
      { halfOf (set_connection_values c (msg.flags % 2) msg.fee_base_msat
          msg.fee_proportional_millionths msg.expiry
          (msg.flags &&& ROUTING_FLAGS_DISABLED == 0) msg.timestamp
          msg.htlc_minimum_msat) (msg.flags % 2) with
        channel_update_msgidx := b, channel_update := some update } := by
  unfold acceptedChan
  rw [halfOf_setHalf_same]

theorem acceptedChan_last_timestamp (update : List Nat) (msg : CUpdMsg)
    (c : Chan) (b : Nat) :
    (halfOf (acceptedChan update msg c b) (msg.flags % 2)).last_timestamp =
      (msg.timestamp : Int) := by
  rw [acceptedChan_half_self]
  show (halfOf (set_connection_values _ _ _ _ _ _ _ _) _).last_timestamp = _
  rw [halfOf_set_connection_values]
  split <;> rfl

theorem acceptedChan_active_overflow (update : List Nat) (msg : CUpdMsg)
    (c : Chan) (b : Nat)
    (h : MAX_PROPORTIONAL_FEE ≤ msg.fee_proportional_millionths) :
    (halfOf (acceptedChan update msg c b) (msg.flags % 2)).active = false := by
  rw [acceptedChan_half_self]
  show (halfOf (set_connection_values _ _ _ _ _ _ _ _) _).active = _
  rw [halfOf_set_connection_values]
  simp only [if_pos h]

/-- C9: after handle_channel_update accepts an update (channel known and
dispatched to the half-edge, newer timestamp, valid signature) whose
proportional fee is at least 2^24, the affected half-edge is inactive,
whatever the DISABLED flag of the update says. -/
theorem c9_overflow_fee_disables (env : Env) (st : RoutingState)
    (update : List Nat) (msg : CUpdMsg) (c : Chan)
    (hp : env.parseCU update = some msg)
    (hchain : msg.chain_hash = st.chain_hash)
    (hchan : get_channel st msg.short_channel_id = some c)
    (hdisp : c.public = true
             ∨ find_pending_cannouncement st msg.short_channel_id = none)
    (hts : (halfOf c (msg.flags % 2)).last_timestamp < (msg.timestamp : Int))
    (hsig : env.checkCUSig (nodeIdAt c (msg.flags % 2)) update = true)
    (hprop : MAX_PROPORTIONAL_FEE ≤ msg.fee_proportional_millionths) :
    ∃ c2, get_channel (handle_channel_update env st update)
            msg.short_channel_id = some c2
      ∧ (halfOf c2 (msg.flags % 2)).active = false := by
  rw [hcu_to_apply env st update msg c hp hchain hchan hdisp,
      acu_accept env st update msg c hts hsig]
  refine ⟨acceptedChan update msg c st.broadcasts.next_index, ?_, ?_⟩
  · show (replaceFirstBy _ _ st.chanmap).find? _ = _
    refine replaceFirstBy_find?_same hchan ?_
    rw [acceptedChan_scid]
    have h' : st.chanmap.find? (fun x => x.scid == msg.short_channel_id)
        = some c := hchan
    have h2 := List.find?_some h'
    exact h2
  · exact acceptedChan_active_overflow update msg c _ hprop

theorem get_channel_scid_eq {st : RoutingState} {scid : Nat} {c : Chan}
    (h : get_channel st scid = some c) : c.scid = scid := by
  have h' : st.chanmap.find? (fun x => x.scid == scid) = some c := h
  have h2 := List.find?_some h'
  simpa using h2

theorem get_node_id_eq {st : RoutingState} {i : Nat} {n : Node}
    (h : get_node st i = some n) : n.id = i := by
  have h' : st.nodes.find? (fun x => x.id == i) = some n := h
  have h2 := List.find?_some h'
  simpa using h2

theorem find_pending_scid_eq {st : RoutingState} {scid : Nat}
    {p : PendingCAnn} (h : find_pending_cannouncement st scid = some p) :
    p.short_channel_id = scid := by
  have h' : st.pending_cann.find? (fun x => x.short_channel_id == scid)
      = some p := h
  have h2 := List.find?_some h'
  simpa using h2

theorem find_pna_nodeid_eq {st : RoutingState} {i : Nat} {p : PendingNAnn}
    (h : find_pending_node_announce st i = some p) : p.nodeid = i := by
  have h' : st.pending_node_map.find? (fun x => x.nodeid == i) = some p := h
  have h2 := List.find?_some h'
  simpa using h2

/-- Channel-map preservation lemmas for the rejecting paths of
handle_channel_update. -/
theorem hcu_chanmap_of_pending (env : Env) (st : RoutingState)
    (update : List Nat) (msg : CUpdMsg) (p : PendingCAnn)
    (hp : env.parseCU update = some msg)
    (hchain : msg.chain_hash = st.chain_hash)
    (hchan : get_channel st msg.short_channel_id = none
             ∨ ∃ c, get_channel st msg.short_channel_id = some c ∧ c.public = false)
    (hpend : find_pending_cannouncement st msg.short_channel_id = some p) :
    (handle_channel_update env st update).chanmap = st.chanmap := by
  rw [hcu_to_pending env st update msg p hp hchain hchan hpend]

theorem hcu_chanmap_of_reject_ts (env : Env) (st : RoutingState)
    (update : List Nat) (msg : CUpdMsg) (c : Chan)
    (hp : env.parseCU update = some msg)
    (hchain : msg.chain_hash = st.chain_hash)
    (hchan : get_channel st msg.short_channel_id = some c)
    (hdisp : c.public = true
             ∨ find_pending_cannouncement st msg.short_channel_id = none)
    (hts : (msg.timestamp : Int) ≤ (halfOf c (msg.flags % 2)).last_timestamp) :
    (handle_channel_update env st update).chanmap = st.chanmap := by
  rw [hcu_to_apply env st update msg c hp hchain hchan hdisp,
      acu_reject_ts env st update msg c hts]

theorem hcu_chanmap_of_reject_sig (env : Env) (st : RoutingState)
    (update : List Nat) (msg : CUpdMsg) (c : Chan)
    (hp : env.parseCU update = some msg)
    (hchain : msg.chain_hash = st.chain_hash)
    (hchan : get_channel st msg.short_channel_id = some c)
    (hdisp : c.public = true
             ∨ find_pending_cannouncement st msg.short_channel_id = none)
    (hts : (halfOf c (msg.flags % 2)).last_timestamp < (msg.timestamp : Int))
    (hsig : env.checkCUSig (nodeIdAt c (msg.flags % 2)) update = false) :
    (handle_channel_update env st update).chanmap = st.chanmap := by
  rw [hcu_to_apply env st update msg c hp hchain hchan hdisp,
      acu_reject_sig env st update msg c hts hsig]

/-- C3: an update whose timestamp is not newer than the addressed half-edge
leaves every channel (so in particular that half-edge, its fees, delay,
htlc minimum, activity, timestamps and retained bytes) unchanged; and
feeding the identical update twice leaves the channel map exactly as after
the first feed. -/
theorem c3_outdated_update_noop (env : Env) (st : RoutingState)
    (update : List Nat) :
    (∀ msg c, env.parseCU update = some msg →
      get_channel st msg.short_channel_id = some c →
      (msg.timestamp : Int) ≤ (halfOf c (msg.flags % 2)).last_timestamp →
      (handle_channel_update env st update).chanmap = st.chanmap)
    ∧ (handle_channel_update env (handle_channel_update env st update)
        update).chanmap = (handle_channel_update env st update).chanmap := by
  constructor
  · intro msg c hp hchan hts
    by_cases hchain : msg.chain_hash = st.chain_hash
    · by_cases hpub : c.public
      · exact hcu_chanmap_of_reject_ts env st update msg c hp hchain hchan
          (Or.inl hpub) hts
      · cases hpend : find_pending_cannouncement st msg.short_channel_id with
        | some p =>
          exact hcu_chanmap_of_pending env st update msg p hp hchain
            (Or.inr ⟨c, hchan, by simpa using hpub⟩) hpend
        | none =>
          exact hcu_chanmap_of_reject_ts env st update msg c hp hchain hchan
            (Or.inr hpend) hts
    · rw [hcu_chain_ne env st update msg hp hchain]
  · cases hp : env.parseCU update with
    | none =>
      rw [hcu_parse_none env st update hp, hcu_parse_none env st update hp]
    | some msg =>
      by_cases hchain : msg.chain_hash = st.chain_hash
      · cases hchan : get_channel st msg.short_channel_id with
        | none =>
          cases hpend : find_pending_cannouncement st msg.short_channel_id with
          | none =>
            rw [hcu_unknown env st update msg hp hchain hchan hpend,
                hcu_unknown env st update msg hp hchain hchan hpend]
          | some p =>
            rw [hcu_to_pending env st update msg p hp hchain (Or.inl hchan) hpend]
            refine hcu_chanmap_of_pending env _ update msg
              (update_pending p msg.timestamp update (msg.flags % 2))
              hp ?_ (Or.inl ?_) ?_
            · exact hchain
            · exact hchan
            · show (replaceFirstBy _ _ st.pending_cann).find? _ = _
              refine replaceFirstBy_find?_same hpend ?_
              rw [update_pending_scid, find_pending_scid_eq hpend]
              simp
        | some c =>
          by_cases hpub : c.public
          · rw [hcu_to_apply env st update msg c hp hchain hchan (Or.inl hpub)]
            by_cases hts : (msg.timestamp : Int)
                ≤ (halfOf c (msg.flags % 2)).last_timestamp
            · rw [acu_reject_ts env st update msg c hts]
              exact hcu_chanmap_of_reject_ts env st update msg c hp hchain
                hchan (Or.inl hpub) hts
            · by_cases hsig : env.checkCUSig (nodeIdAt c (msg.flags % 2)) update
                  = true
              · rw [acu_accept env st update msg c (by omega) hsig]
                refine hcu_chanmap_of_reject_ts env _ update msg
                  (acceptedChan update msg c st.broadcasts.next_index)
                  hp ?_ ?_ (Or.inl ?_) ?_
                · exact hchain
                · show (replaceFirstBy _ _ st.chanmap).find? _ = _
                  refine replaceFirstBy_find?_same hchan ?_
                  rw [acceptedChan_scid, get_channel_scid_eq hchan]
                  simp
                · rw [acceptedChan_public]
                  exact hpub
                · rw [acceptedChan_last_timestamp]
              · rw [acu_reject_sig env st update msg c (by omega)
                      (by simpa using hsig)]
                exact hcu_chanmap_of_reject_sig env st update msg c hp hchain
                  hchan (Or.inl hpub) (by omega) (by simpa using hsig)
          · cases hpend : find_pending_cannouncement st msg.short_channel_id with
            | some p =>
              rw [hcu_to_pending env st update msg p hp hchain
                (Or.inr ⟨c, hchan, by simpa using hpub⟩) hpend]
              refine hcu_chanmap_of_pending env _ update msg
                (update_pending p msg.timestamp update (msg.flags % 2))
                hp ?_ (Or.inr ⟨c, ?_, ?_⟩) ?_
              · exact hchain
              · exact hchan
              · simpa using hpub
              · show (replaceFirstBy _ _ st.pending_cann).find? _ = _
                refine replaceFirstBy_find?_same hpend ?_
                rw [update_pending_scid, find_pending_scid_eq hpend]
                simp
            | none =>
              rw [hcu_to_apply env st update msg c hp hchain hchan (Or.inr hpend)]
              by_cases hts : (msg.timestamp : Int)
                  ≤ (halfOf c (msg.flags % 2)).last_timestamp
              · rw [acu_reject_ts env st update msg c hts]
                exact hcu_chanmap_of_reject_ts env st update msg c hp hchain
                  hchan (Or.inr hpend) hts
              · by_cases hsig : env.checkCUSig (nodeIdAt c (msg.flags % 2))
                    update = true
                · rw [acu_accept env st update msg c (by omega) hsig]
                  refine hcu_chanmap_of_reject_ts env _ update msg
                    (acceptedChan update msg c st.broadcasts.next_index)
                    hp ?_ ?_ (Or.inr ?_) ?_
                  · exact hchain
                  · show (replaceFirstBy _ _ st.chanmap).find? _ = _
                    refine replaceFirstBy_find?_same hchan ?_
                    rw [acceptedChan_scid, get_channel_scid_eq hchan]
                    simp
                  · exact hpend
                  · rw [acceptedChan_last_timestamp]
                · rw [acu_reject_sig env st update msg c (by omega)
                        (by simpa using hsig)]
                  exact hcu_chanmap_of_reject_sig env st update msg c hp hchain
                    hchan (Or.inr hpend) (by omega) (by simpa using hsig)
      · rw [hcu_chain_ne env st update msg hp hchain,
            hcu_chain_ne env st update msg hp hchain]

theorem update_pending_spec (p : PendingCAnn) (ts : Nat) (u : List Nat)
    (d : Nat) (hd : d < 2) :
    (pendingTs p d < ts →
      pendingUpdate (update_pending p ts u d) d = some u
      ∧ pendingTs (update_pending p ts u d) d = ts
      ∧ pendingUpdate (update_pending p ts u d) (1 - d) = pendingUpdate p (1 - d)
      ∧ pendingTs (update_pending p ts u d) (1 - d) = pendingTs p (1 - d)
      ∧ (update_pending p ts u d).announce = p.announce)
    ∧ (ts ≤ pendingTs p d → update_pending p ts u d = p) := by
  unfold update_pending pendingUpdate pendingTs
  interval_cases d <;> constructor <;> intro h <;> simp_all

/-- Reduction of handle_node_announcement to the pending parking slot. -/
theorem hna_to_pna (env : Env) (st : RoutingState) (ann : List Nat)
    (msg : NAnnMsg) (pna : PendingNAnn)
    (hp : env.parseNA ann = some msg)
    (hfeat : env.unsupportedFeatures msg.features = false)
    (hsig : env.checkNASig ann = true)
    (hnode : get_node st msg.node_id = none)
    (hpna : find_pending_node_announce st msg.node_id = some pna) :
    handle_node_announcement env st ann =
      if pna.timestamp < msg.timestamp then
        { st with pending_node_map :=
            (replaceFirstBy (fun q => q.nodeid == msg.node_id)
              { pna with timestamp := msg.timestamp,
                         node_announcement := some ann }
              st.pending_node_map) }
      else st := by
  unfold handle_node_announcement
  rw [hp]
  simp only [hfeat, hsig, Bool.not_true, if_false, Bool.false_eq_true,
    hnode, hpna]

/-- C10: a deferred channel update buffered on a pending channel
announcement (per direction), and a node announcement parked on a pending
slot (per node), replace the buffer only when strictly newer by timestamp;
an equal or older message leaves the buffer exactly as it was (ties keep
the first arrival). -/
theorem c10_pending_buffers_newest_wins (env : Env) (st : RoutingState) :
    (∀ update msg p, env.parseCU update = some msg →
      msg.chain_hash = st.chain_hash →
      (get_channel st msg.short_channel_id = none
       ∨ ∃ c, get_channel st msg.short_channel_id = some c ∧ c.public = false) →
      find_pending_cannouncement st msg.short_channel_id = some p →
      ∃ p2, find_pending_cannouncement (handle_channel_update env st update)
              msg.short_channel_id = some p2
        ∧ (pendingTs p (msg.flags % 2) < msg.timestamp →
            pendingUpdate p2 (msg.flags % 2) = some update
            ∧ pendingTs p2 (msg.flags % 2) = msg.timestamp
            ∧ pendingUpdate p2 (1 - msg.flags % 2)
                = pendingUpdate p (1 - msg.flags % 2)
            ∧ pendingTs p2 (1 - msg.flags % 2) = pendingTs p (1 - msg.flags % 2)
            ∧ p2.announce = p.announce)
        ∧ (msg.timestamp ≤ pendingTs p (msg.flags % 2) → p2 = p))
    ∧ (∀ ann msg pna, env.parseNA ann = some msg →
        env.unsupportedFeatures msg.features = false →
        env.checkNASig ann = true →
        get_node st msg.node_id = none →
        find_pending_node_announce st msg.node_id = some pna →
        ∃ pna2, find_pending_node_announce (handle_node_announcement env st ann)
                  msg.node_id = some pna2
          ∧ (pna.timestamp < msg.timestamp →
              pna2.node_announcement = some ann
              ∧ pna2.timestamp = msg.timestamp)
          ∧ (msg.timestamp ≤ pna.timestamp → pna2 = pna)) := by
  constructor
  · intro update msg p hp hchain hchan hpend
    rw [hcu_to_pending env st update msg p hp hchain hchan hpend]
    refine ⟨update_pending p msg.timestamp update (msg.flags % 2), ?_, ?_, ?_⟩
    · show (replaceFirstBy _ _ st.pending_cann).find? _ = _
      refine replaceFirstBy_find?_same hpend ?_
      rw [update_pending_scid, find_pending_scid_eq hpend]
      simp
    · intro hlt
      exact (update_pending_spec p msg.timestamp update (msg.flags % 2)
        (by omega)).1 hlt
    · intro hle
      exact (update_pending_spec p msg.timestamp update (msg.flags % 2)
        (by omega)).2 hle
  · intro ann msg pna hp hfeat hsig hnode hpna
    rw [hna_to_pna env st ann msg pna hp hfeat hsig hnode hpna]
    by_cases hlt : pna.timestamp < msg.timestamp
    · rw [if_pos hlt]
      refine ⟨{ pna with timestamp := msg.timestamp,
                         node_announcement := some ann }, ?_, ?_, ?_⟩
      · show (replaceFirstBy _ _ st.pending_node_map).find? _ = _
        refine replaceFirstBy_find?_same hpna ?_
        have : pna.nodeid = msg.node_id := find_pna_nodeid_eq hpna
        simp [this]
      · intro _
        exact ⟨rfl, rfl⟩
      · intro hle
        omega
    · rw [if_neg hlt]
      exact ⟨pna, hpna, fun h => absurd h hlt, fun _ => rfl⟩

theorem find?_append_left_none {α : Type} {p : α → Bool} {l1 l2 : List α}
    (h : l1.find? p = none) : (l1 ++ l2).find? p = l2.find? p := by
  induction l1 with
  | nil => rfl
  | cons b r ih =>
    have hb : p b = false := by
      have := (List.find?_eq_none.1 h) b (by simp)
      simpa using this
    rw [List.cons_append, List.find?_cons_of_neg _ (by simp [hb])]
    rw [List.find?_cons_of_neg _ (by simp [hb])] at h
    exact ih h

theorem modifyNode_frame (st : RoutingState) (id : Nat) (f : Node → Node) :
    (modifyNode st id f).chanmap = st.chanmap
    ∧ (modifyNode st id f).pending_cann = st.pending_cann
    ∧ (modifyNode st id f).pending_node_map = st.pending_node_map
    ∧ (modifyNode st id f).broadcasts = st.broadcasts
    ∧ (modifyNode st id f).chain_hash = st.chain_hash
    ∧ (modifyNode st id f).local_id = st.local_id
    ∧ (modifyNode st id f).prune_timeout = st.prune_timeout := by
  unfold modifyNode
  split <;> exact ⟨rfl, rfl, rfl, rfl, rfl, rfl, rfl⟩

theorem new_chan_frame (env : Env) (st : RoutingState) (scid i j : Nat) :
    (new_chan env st scid i j).pending_cann = st.pending_cann
    ∧ (new_chan env st scid i j).pending_node_map = st.pending_node_map
    ∧ (new_chan env st scid i j).broadcasts = st.broadcasts
    ∧ (new_chan env st scid i j).chain_hash = st.chain_hash
    ∧ (new_chan env st scid i j).local_id = st.local_id
    ∧ (new_chan env st scid i j).prune_timeout = st.prune_timeout := by
  unfold new_chan modifyNode
  dsimp only
  repeat' constructor
  all_goals repeat' split
  all_goals rfl

theorem new_chan_chanmap (env : Env) (st : RoutingState) (scid i j : Nat) :
    ∃ c, (new_chan env st scid i j).chanmap = st.chanmap ++ [c]
      ∧ c.scid = scid := by
  unfold new_chan modifyNode
  dsimp only
  repeat' split
  all_goals exact ⟨_, rfl, rfl⟩

/-- C8 (amended): the boolean returned by handle_pending_cannouncement is
true exactly when the whole chain check went through (a pending entry
exists, the output is unspent, the script matches) and one endpoint is the
locally configured node. -/
theorem c8_resolution_returns_locality (env : Env) (st : RoutingState)
    (scid : Nat) (satoshis : Nat) (outscript : List Nat) :
    (handle_pending_cannouncement env st scid satoshis outscript).2 = true ↔
      ∃ p, find_pending_cannouncement st scid = some p
        ∧ outscript ≠ []
        ∧ env.expectedScript p.bitcoin_key_1 p.bitcoin_key_2 = outscript
        ∧ (p.node_id_1 = st.local_id ∨ p.node_id_2 = st.local_id) := by
  unfold handle_pending_cannouncement
  cases hfp : find_pending_cannouncement st scid with
  | none => simp
  | some p =>
    dsimp only
    by_cases hlen : outscript.length = 0
    · rw [if_pos hlen]
      have hnil : outscript = [] := List.length_eq_zero.1 hlen
      simp [hnil]
    · rw [if_neg hlen]
      by_cases hscript : env.expectedScript p.bitcoin_key_1 p.bitcoin_key_2
          ≠ outscript
      · rw [if_pos hscript]
        constructor
        · intro h
          simp at h
        · rintro ⟨p', hp', _, hs, _⟩
          rw [Option.some_inj] at hp'
          exact absurd (hp' ▸ hs) hscript
      · rw [if_neg hscript]
        rw [not_ne_iff] at hscript
        by_cases hex : (get_channel st scid).isSome
        · rw [if_pos hex]
          obtain ⟨c, hc⟩ := Option.isSome_iff_exists.1 hex
          rw [hc]
          show (p.node_id_1 == st.local_id || p.node_id_2 == st.local_id)
              = true ↔ _
          constructor
          · intro h
            refine ⟨p, rfl, fun h2 => hlen (by simp [h2]), hscript, ?_⟩
            rcases Bool.or_eq_true_iff.1 h with h | h
            · exact Or.inl (by simpa using h)
            · exact Or.inr (by simpa using h)
          · rintro ⟨p', hp', _, _, hloc⟩
            rw [Option.some_inj] at hp'
            subst hp'
            rcases hloc with h | h
            · simp [h]
            · simp [h]
        · rw [if_neg hex]
          obtain ⟨cnew, hmap, hscid⟩ := new_chan_chanmap env st scid
            p.node_id_1 p.node_id_2
          have hnone : get_channel st scid = none := by
            cases h : get_channel st scid with
            | none => rfl
            | some c => rw [h] at hex; simp at hex
          have hfind : get_channel (new_chan env st scid p.node_id_1
              p.node_id_2) scid = some cnew := by
            show (new_chan env st scid p.node_id_1 p.node_id_2).chanmap.find?
              (fun c => c.scid == scid) = some cnew
            rw [hmap]
            rw [find?_append_left_none hnone]
            exact List.find?_cons_of_pos _ (by simp [hscid])
          rw [hfind]
          have hlocal : (new_chan env st scid p.node_id_1
              p.node_id_2).local_id = st.local_id :=
            (new_chan_frame env st scid p.node_id_1 p.node_id_2).2.2.2.2.1
          show (p.node_id_1 ==
              (new_chan env st scid p.node_id_1 p.node_id_2).local_id
            || p.node_id_2 ==
              (new_chan env st scid p.node_id_1 p.node_id_2).local_id)
              = true ↔ _
          rw [hlocal]
          constructor
          · intro h
            refine ⟨p, rfl, fun h2 => hlen (by simp [h2]), hscript, ?_⟩
            rcases Bool.or_eq_true_iff.1 h with h | h
            · exact Or.inl (by simpa using h)
            · exact Or.inr (by simpa using h)
          · rintro ⟨p', hp', _, _, hloc⟩
            rw [Option.some_inj] at hp'
            subst hp'
            rcases hloc with h | h
            · simp [h]
            · simp [h]

/-! ### Keyed-list lemmas for the destroy / prune proofs -/

theorem mem_replaceFirstBy {α : Type} {p : α → Bool} {x a : α} {l : List α}
    (h : a ∈ replaceFirstBy p x l) : a = x ∨ a ∈ l := by
  induction l with
  | nil => simp [replaceFirstBy] at h
  | cons b r ih =>
    unfold replaceFirstBy at h
    by_cases hb : p b
    · rw [if_pos hb] at h
      rcases List.mem_cons.1 h with h | h
      · exact Or.inl h
      · exact Or.inr (List.mem_cons_of_mem _ h)
    · rw [if_neg hb] at h
      rcases List.mem_cons.1 h with h | h
      · exact Or.inr (h ▸ List.mem_cons_self _ _)
      · rcases ih h with h | h
        · exact Or.inl h
        · exact Or.inr (List.mem_cons_of_mem _ h)

theorem eraseFirstBy_sublist {α : Type} (p : α → Bool) (l : List α) :
    (eraseFirstBy p l).Sublist l := by
  induction l with
  | nil => simp [eraseFirstBy]
  | cons b r ih =>
    unfold eraseFirstBy
    by_cases hb : p b
    · rw [if_pos hb]
      exact List.sublist_cons_self b r
    · rw [if_neg hb]
      exact List.Sublist.cons₂ b ih

theorem mem_eraseFirstBy_of_not_pred {α : Type} {p : α → Bool} {a : α}
    {l : List α} (ha : a ∈ l) (hp : p a = false) :
    a ∈ eraseFirstBy p l := by
  induction l with
  | nil => simp at ha
  | cons b r ih =>
    unfold eraseFirstBy
    by_cases hb : p b
    · rw [if_pos hb]
      rcases List.mem_cons.1 ha with h | h
      · rw [h] at hp
        rw [hb] at hp
        simp at hp
      · exact h
    · rw [if_neg hb]
      rcases List.mem_cons.1 ha with h | h
      · exact h ▸ List.mem_cons_self _ _
      · exact List.mem_cons_of_mem _ (ih h)

theorem nodup_map_cons_parts {α κ : Type} (key : α → κ) (b : α) (r : List α)
    (h : ((b :: r).map key).Nodup) :
    key b ∉ r.map key ∧ (r.map key).Nodup := by
  rw [List.map_cons] at h
  exact ⟨(List.nodup_cons.1 h).1, (List.nodup_cons.1 h).2⟩

theorem mem_eraseFirstBy_key {α κ : Type} [DecidableEq κ] (key : α → κ)
    {k : κ} {l : List α} {x : α} (hnodup : (l.map key).Nodup)
    (hx : x ∈ eraseFirstBy (fun a => key a == k) l) : key x ≠ k := by
  induction l with
  | nil => simp [eraseFirstBy] at hx
  | cons b r ih =>
    unfold eraseFirstBy at hx
    by_cases hb : key b == k
    · rw [if_pos hb] at hx
      have hbk : key b = k := by simpa using hb
      have hmem : key x ∈ r.map key := List.mem_map_of_mem _ hx
      intro hxk
      have hnd := (nodup_map_cons_parts key b r hnodup).1
      rw [← hbk] at hxk
      rw [hxk] at hmem
      exact hnd hmem
    · rw [if_neg hb] at hx
      rcases List.mem_cons.1 hx with h | h
      · rw [h]
        simpa using hb
      · exact ih (nodup_map_cons_parts key b r hnodup).2 h

theorem find?_eraseFirstBy_disjoint {α : Type} {p q : α → Bool} {l : List α}
    (himp : ∀ a ∈ l, p a = true → q a = false) :
    (eraseFirstBy p l).find? q = l.find? q := by
  induction l with
  | nil => rfl
  | cons b r ih =>
    unfold eraseFirstBy
    by_cases hb : p b
    · rw [if_pos hb]
      rw [List.find?_cons_of_neg _ (by simp [himp b (by simp) hb])]
    · rw [if_neg hb]
      by_cases hqb : q b
      · rw [List.find?_cons_of_pos _ hqb, List.find?_cons_of_pos _ hqb]
      · rw [List.find?_cons_of_neg _ (by simp [hqb]),
            List.find?_cons_of_neg _ (by simp [hqb])]
        exact ih (fun a ha hpa => himp a (by simp [ha]) hpa)

theorem map_key_replaceFirstBy {α κ : Type} (key : α → κ) {p : α → Bool}
    {x : α} {l : List α} (hkey : ∀ a ∈ l, p a = true → key a = key x) :
    (replaceFirstBy p x l).map key = l.map key := by
  induction l with
  | nil => rfl
  | cons b r ih =>
    unfold replaceFirstBy
    by_cases hb : p b
    · rw [if_pos hb]
      simp [hkey b (by simp) hb]
    · rw [if_neg hb]
      simp only [List.map_cons]
      rw [ih (fun a ha hpa => hkey a (by simp [ha]) hpa)]

theorem nodup_key_unique {α κ : Type} (key : α → κ) {l : List α} {a b : α}
    (hnodup : (l.map key).Nodup) (ha : a ∈ l) (hb : b ∈ l)
    (hk : key a = key b) : a = b := by
  induction l with
  | nil => simp at ha
  | cons c r ih =>
    rcases List.mem_cons.1 ha with ha1 | ha1 <;>
      rcases List.mem_cons.1 hb with hb1 | hb1
    · rw [ha1, hb1]
    · exfalso
      have hnd := (nodup_map_cons_parts key c r hnodup).1
      rw [ha1] at hk
      exact hnd (hk ▸ List.mem_map_of_mem _ hb1)
    · exfalso
      have hnd := (nodup_map_cons_parts key c r hnodup).1
      rw [hb1] at hk
      exact hnd (hk ▸ List.mem_map_of_mem _ ha1)
    · exact ih (nodup_map_cons_parts key c r hnodup).2 ha1 hb1

/-! ### destroy_chan and route_prune lemmas -/

theorem unlinkChan_frame (st : RoutingState) (nid scid : Nat) :
    (unlinkChan st nid scid).chanmap = st.chanmap
    ∧ (unlinkChan st nid scid).pending_cann = st.pending_cann
    ∧ (unlinkChan st nid scid).pending_node_map = st.pending_node_map
    ∧ (unlinkChan st nid scid).broadcasts = st.broadcasts
    ∧ (unlinkChan st nid scid).chain_hash = st.chain_hash
    ∧ (unlinkChan st nid scid).local_id = st.local_id
    ∧ (unlinkChan st nid scid).prune_timeout = st.prune_timeout := by
  unfold unlinkChan
  exact modifyNode_frame st nid _

theorem unlinkChan_map_ids (st : RoutingState) (nid scid : Nat) :
    (unlinkChan st nid scid).nodes.map (fun n => n.id)
      = st.nodes.map (fun n => n.id) := by
  unfold unlinkChan modifyNode
  cases h : get_node st nid with
  | none => rfl
  | some n =>
    show (replaceFirstBy _ _ st.nodes).map _ = _
    refine map_key_replaceFirstBy _ ?_
    intro a _ hpa
    show a.id = n.id
    rw [get_node_id_eq h]
    simpa using hpa

theorem mem_unlinkChan_nodes {st : RoutingState} {nid scid : Nat} {a : Node}
    (h : a ∈ (unlinkChan st nid scid).nodes) :
    a ∈ st.nodes
    ∨ ∃ n, get_node st nid = some n
        ∧ a = { n with chans := eraseFirstBy (fun s => s == scid) n.chans } := by
  unfold unlinkChan modifyNode at h
  cases hg : get_node st nid with
  | none =>
    rw [hg] at h
    exact Or.inl h
  | some n =>
    rw [hg] at h
    rcases mem_replaceFirstBy h with h | h
    · exact Or.inr ⟨n, rfl, h⟩
    · exact Or.inl h

theorem gcNode_frame (st : RoutingState) (nid : Nat) :
    (gcNode st nid).chanmap = st.chanmap
    ∧ (gcNode st nid).pending_cann = st.pending_cann
    ∧ (gcNode st nid).pending_node_map = st.pending_node_map
    ∧ (gcNode st nid).broadcasts = st.broadcasts
    ∧ (gcNode st nid).chain_hash = st.chain_hash
    ∧ (gcNode st nid).local_id = st.local_id
    ∧ (gcNode st nid).prune_timeout = st.prune_timeout := by
  unfold gcNode
  repeat' constructor
  all_goals repeat' split
  all_goals rfl

theorem mem_gcNode_nodes {st : RoutingState} {nid : Nat} {a : Node}
    (h : a ∈ (gcNode st nid).nodes) : a ∈ st.nodes := by
  unfold gcNode at h
  cases hg : get_node st nid with
  | none =>
    rw [hg] at h
    exact h
  | some n =>
    rw [hg] at h
    dsimp only at h
    by_cases hc : n.chans = []
    · rw [if_pos hc] at h
      exact mem_eraseFirstBy h
    · rw [if_neg hc] at h
      exact h

theorem gcNode_nodes_sublist (st : RoutingState) (nid : Nat) :
    ((gcNode st nid).nodes.map (fun n => n.id)).Sublist
      (st.nodes.map (fun n => n.id)) := by
  unfold gcNode
  cases hg : get_node st nid with
  | none => exact List.Sublist.refl _
  | some n =>
    dsimp only
    by_cases hc : n.chans = []
    · rw [if_pos hc]
      exact List.Sublist.map _ (eraseFirstBy_sublist _ _)
    · rw [if_neg hc]
      try exact List.Sublist.refl _

theorem destroy_chan_none (st : RoutingState) (scid : Nat)
    (h : get_channel st scid = none) : destroy_chan st scid = st := by
  unfold destroy_chan
  rw [h]

theorem destroy_chan_chanmap (st : RoutingState) (scid : Nat) (c : Chan)
    (h : get_channel st scid = some c) :
    (destroy_chan st scid).chanmap
      = eraseFirstBy (fun x => x.scid == scid) st.chanmap := by
  unfold destroy_chan
  rw [h]
  dsimp only
  rw [(gcNode_frame _ _).1, (gcNode_frame _ _).1]
  show eraseFirstBy _ (unlinkChan (unlinkChan st c.node0 scid) c.node1 scid).chanmap = _
  rw [(unlinkChan_frame _ _ _).1, (unlinkChan_frame _ _ _).1]
  try rfl

theorem destroy_chan_chanmap_sublist (st : RoutingState) (scid : Nat) :
    ((destroy_chan st scid).chanmap).Sublist st.chanmap := by
  cases h : get_channel st scid with
  | none =>
    rw [destroy_chan_none st scid h]
    try exact List.Sublist.refl _
  | some c =>
    rw [destroy_chan_chanmap st scid c h]
    exact eraseFirstBy_sublist _ _

theorem destroy_chan_scid_gone (st : RoutingState) (scid : Nat)
    (hnodup : (st.chanmap.map (fun c => c.scid)).Nodup) :
    ∀ c2 ∈ (destroy_chan st scid).chanmap, c2.scid ≠ scid := by
  intro c2 hc2
  cases h : get_channel st scid with
  | none =>
    rw [destroy_chan_none st scid h] at hc2
    intro heq
    have : st.chanmap.find? (fun x => x.scid == scid) = none := h
    have := List.find?_eq_none.1 this c2 hc2
    simp [heq] at this
  | some c =>
    rw [destroy_chan_chanmap st scid c h] at hc2
    exact mem_eraseFirstBy_key (fun c : Chan => c.scid) hnodup hc2

theorem destroy_chan_keeps (st : RoutingState) (scid : Nat) {c2 : Chan}
    (hc2 : c2 ∈ st.chanmap) (hne : c2.scid ≠ scid) :
    c2 ∈ (destroy_chan st scid).chanmap := by
  cases h : get_channel st scid with
  | none =>
    rw [destroy_chan_none st scid h]
    exact hc2
  | some c =>
    rw [destroy_chan_chanmap st scid c h]
    exact mem_eraseFirstBy_of_not_pred hc2 (by simpa using hne)

theorem destroy_chan_node_ids_sublist (st : RoutingState) (scid : Nat) :
    ((destroy_chan st scid).nodes.map (fun n => n.id)).Sublist
      (st.nodes.map (fun n => n.id)) := by
  cases h : get_channel st scid with
  | none =>
    rw [destroy_chan_none st scid h]
    try exact List.Sublist.refl _
  | some c =>
    unfold destroy_chan
    rw [h]
    dsimp only
    refine (gcNode_nodes_sublist _ _).trans ?_
    refine (gcNode_nodes_sublist _ _).trans ?_
    show ((unlinkChan (unlinkChan st c.node0 scid) c.node1 scid).nodes.map _).Sublist _
    rw [unlinkChan_map_ids, unlinkChan_map_ids]
    try exact List.Sublist.refl _

theorem get_node_of_mem {st : RoutingState} {n : Node}
    (hnodup : (st.nodes.map (fun m => m.id)).Nodup) (hmem : n ∈ st.nodes) :
    get_node st n.id = some n := by
  cases hfind : st.nodes.find? (fun m => m.id == n.id) with
  | none =>
    have := List.find?_eq_none.1 hfind n hmem
    simp at this
  | some fnd =>
    have hin : fnd ∈ st.nodes := List.mem_of_find?_eq_some hfind
    have hid : fnd.id = n.id := by
      have h2 := List.find?_some hfind
      simpa using h2
    have heq : fnd = n := nodup_key_unique (fun m : Node => m.id) hnodup hin hmem hid
    rw [heq] at hfind
    exact hfind

theorem gcNode_erases (st : RoutingState) (id : Nat) (n : Node)
    (hget : get_node st id = some n) (hempty : n.chans = []) :
    (gcNode st id).nodes = eraseFirstBy (fun m => m.id == id) st.nodes := by
  unfold gcNode
  rw [hget]
  dsimp only
  rw [if_pos hempty]

theorem gcNode_get_node_other (st : RoutingState) (id0 nid : Nat)
    (hne : nid ≠ id0) :
    get_node (gcNode st id0) nid = get_node st nid := by
  unfold gcNode
  cases hg : get_node st id0 with
  | none => rfl
  | some m =>
    dsimp only
    by_cases hc : m.chans = []
    · rw [if_pos hc]
      show (eraseFirstBy _ st.nodes).find? _ = _
      rw [find?_eraseFirstBy_disjoint]
      · rfl
      · intro a _ hpa
        have ha : a.id = id0 := by simpa using hpa
        have hq : ¬ (a.id = nid) := by
          rw [ha]
          intro hcontra
          exact hne hcontra.symm
        simpa using hq
    · rw [if_neg hc]

theorem gc_pair_kills_empty (st3 : RoutingState) (id0 id1 : Nat) (n : Node)
    (hnodup3 : (st3.nodes.map (fun m => m.id)).Nodup)
    (hmem3 : n ∈ st3.nodes) (hempty : n.chans = [])
    (hid : n.id = id0 ∨ n.id = id1)
    (hmem : n ∈ (gcNode (gcNode st3 id0) id1).nodes) : False := by
  have hget3 : get_node st3 n.id = some n := get_node_of_mem hnodup3 hmem3
  by_cases h0 : n.id = id0
  · have hget0 : get_node st3 id0 = some n := by
      rw [← h0]
      exact hget3
    have hgc1 := gcNode_erases st3 id0 n hget0 hempty
    have hmem1 : n ∈ (gcNode st3 id0).nodes := mem_gcNode_nodes hmem
    rw [hgc1] at hmem1
    exact mem_eraseFirstBy_key (fun m : Node => m.id) hnodup3 hmem1 h0
  · have hid1 : n.id = id1 := by
      rcases hid with h | h
      · exact absurd h h0
      · exact h
    have hget4 : get_node (gcNode st3 id0) id1 = some n := by
      rw [gcNode_get_node_other st3 id0 id1 (by intro hc; exact h0 (hid1.trans hc))]
      rw [← hid1]
      exact hget3
    have hnodup4 : ((gcNode st3 id0).nodes.map (fun m => m.id)).Nodup :=
      (gcNode_nodes_sublist st3 id0).nodup hnodup3
    have hgc2 := gcNode_erases (gcNode st3 id0) id1 n hget4 hempty
    rw [hgc2] at hmem
    exact mem_eraseFirstBy_key (fun m : Node => m.id) hnodup4 hmem hid1

theorem destroy_chan_nodes_nonempty (st : RoutingState) (scid : Nat)
    (hnodupN : (st.nodes.map (fun m => m.id)).Nodup)
    (hne : ∀ n ∈ st.nodes, n.chans ≠ []) :
    ∀ n ∈ (destroy_chan st scid).nodes, n.chans ≠ [] := by
  cases h : get_channel st scid with
  | none =>
    rw [destroy_chan_none st scid h]
    exact hne
  | some c =>
    intro n hn hempty
    unfold destroy_chan at hn
    rw [h] at hn
    dsimp only at hn
    have hmem3 := mem_gcNode_nodes (mem_gcNode_nodes hn)
    have hmem2 : n ∈ ((unlinkChan (unlinkChan st c.node0 scid) c.node1
        scid)).nodes := hmem3
    have hnodup3 : ((RoutingState.nodes
        { unlinkChan (unlinkChan st c.node0 scid) c.node1 scid with
          chanmap := eraseFirstBy (fun x => x.scid == scid)
            (unlinkChan (unlinkChan st c.node0 scid) c.node1 scid).chanmap }).map
        (fun m => m.id)).Nodup := by
      show (((unlinkChan (unlinkChan st c.node0 scid) c.node1
        scid)).nodes.map (fun m => m.id)).Nodup
      rw [unlinkChan_map_ids, unlinkChan_map_ids]
      exact hnodupN
    have hid : n ∈ st.nodes ∨ (n.id = c.node0 ∨ n.id = c.node1) := by
      rcases mem_unlinkChan_nodes hmem2 with h1 | ⟨m, hm, hnm⟩
      · rcases mem_unlinkChan_nodes h1 with h0 | ⟨m, hm, hnm⟩
        · exact Or.inl h0
        · refine Or.inr (Or.inl ?_)
          rw [hnm]
          show m.id = c.node0
          exact get_node_id_eq hm
      · refine Or.inr (Or.inr ?_)
        rw [hnm]
        show m.id = c.node1
        exact get_node_id_eq hm
    rcases hid with hmem0 | hid
    · exact hne n hmem0 hempty
    · exact gc_pair_kills_empty _ c.node0 c.node1 n hnodup3 hmem3 hempty hid hn

theorem fold_destroy_chanmap_sublist (L : List Chan) :
    ∀ st : RoutingState,
      ((L.foldl (fun s c => destroy_chan s c.scid) st)).chanmap.Sublist
        st.chanmap := by
  induction L with
  | nil => intro st; exact List.Sublist.refl _
  | cons v rest ih =>
    intro st
    rw [List.foldl_cons]
    exact (ih (destroy_chan st v.scid)).trans
      (destroy_chan_chanmap_sublist st v.scid)

theorem fold_destroy_gone (L : List Chan) :
    ∀ st : RoutingState,
      (st.chanmap.map (fun c : Chan => c.scid)).Nodup →
      ∀ v ∈ L, ∀ c2 ∈ (L.foldl (fun s c => destroy_chan s c.scid) st).chanmap,
        c2.scid ≠ v.scid := by
  induction L with
  | nil => intro st _ v hv; simp at hv
  | cons w rest ih =>
    intro st hnodup v hv c2 hc2
    rw [List.foldl_cons] at hc2
    have hnodup' : ((destroy_chan st w.scid).chanmap.map
        (fun c : Chan => c.scid)).Nodup :=
      (List.Sublist.map _ (destroy_chan_chanmap_sublist st w.scid)).nodup hnodup
    rcases List.mem_cons.1 hv with hv | hv
    · have hc2' : c2 ∈ (destroy_chan st w.scid).chanmap :=
        (fold_destroy_chanmap_sublist rest (destroy_chan st w.scid)).subset hc2
      rw [hv]
      exact destroy_chan_scid_gone st w.scid hnodup c2 hc2'
    · exact ih (destroy_chan st w.scid) hnodup' v hv c2 hc2

theorem fold_destroy_keeps (L : List Chan) :
    ∀ st : RoutingState, ∀ w : Chan, w ∈ st.chanmap →
      (∀ v ∈ L, w.scid ≠ v.scid) →
      w ∈ (L.foldl (fun s c => destroy_chan s c.scid) st).chanmap := by
  induction L with
  | nil => intro st w hw _; exact hw
  | cons v rest ih =>
    intro st w hw hdiff
    rw [List.foldl_cons]
    refine ih (destroy_chan st v.scid) w ?_ ?_
    · exact destroy_chan_keeps st v.scid hw (hdiff v (by simp))
    · intro u hu
      exact hdiff u (by simp [hu])

theorem fold_destroy_nodes_nonempty (L : List Chan) :
    ∀ st : RoutingState,
      (st.nodes.map (fun n : Node => n.id)).Nodup →
      (∀ n ∈ st.nodes, n.chans ≠ []) →
      ∀ n ∈ (L.foldl (fun s c => destroy_chan s c.scid) st).nodes,
        n.chans ≠ [] := by
  induction L with
  | nil => intro st _ hne; exact hne
  | cons v rest ih =>
    intro st hnodup hne
    rw [List.foldl_cons]
    refine ih (destroy_chan st v.scid) ?_ ?_
    · exact (destroy_chan_node_ids_sublist st v.scid).nodup hnodup
    · exact destroy_chan_nodes_nonempty st v.scid hnodup hne

/-- C5: route_prune removes exactly the stale public channels: a public
channel both of whose half-edges are older than now minus prune_timeout is
absent afterwards, every non-public channel survives untouched, and no
node is left with an empty channel array (endpoints that lost their last
channel are destroyed). -/
theorem c5_route_prune_stale_public (env : Env) (st : RoutingState)
    (hnodupC : (st.chanmap.map (fun c : Chan => c.scid)).Nodup)
    (hnodupN : (st.nodes.map (fun n : Node => n.id)).Nodup)
    (hne : ∀ n ∈ st.nodes, n.chans ≠ []) :
    (∀ c ∈ st.chanmap, c.public = true →
      c.half0.last_timestamp < env.now - (st.prune_timeout : Int) →
      c.half1.last_timestamp < env.now - (st.prune_timeout : Int) →
      ∀ c2 ∈ (route_prune env st).chanmap, c2.scid ≠ c.scid)
    ∧ (∀ c ∈ st.chanmap, c.public = false → c ∈ (route_prune env st).chanmap)
    ∧ (∀ n ∈ (route_prune env st).nodes, n.chans ≠ []) := by
  refine ⟨?_, ?_, ?_⟩
  · intro c hc hpub h0 h1 c2 hc2
    unfold route_prune at hc2
    have hvic : c ∈ st.chanmap.filter
        (fun c => c.public && decide (c.half0.last_timestamp
            < env.now - (st.prune_timeout : Int))
          && decide (c.half1.last_timestamp
            < env.now - (st.prune_timeout : Int))) := by
      rw [List.mem_filter]
      exact ⟨hc, by simp [hpub, h0, h1]⟩
    exact fold_destroy_gone _ st hnodupC c hvic c2 hc2
  · intro c hc hpub
    unfold route_prune
    refine fold_destroy_keeps _ st c hc ?_
    intro v hv heq
    have hvm := List.mem_filter.1 hv
    have hvpub : v.public = true := by
      have := hvm.2
      simp only [Bool.and_eq_true] at this
      exact this.1.1
    have : v = c := nodup_key_unique (fun c : Chan => c.scid) hnodupC
      hvm.1 hc heq.symm
    rw [this] at hvpub
    rw [hvpub] at hpub
    simp at hpub
  · intro n hn
    unfold route_prune at hn
    exact fold_destroy_nodes_nonempty _ st hnodupN hne n hn

/-! ### Effect of handle_channel_update on nodes, scids and a fixed half -/

theorem acu_nodes (env : Env) (st : RoutingState) (update : List Nat)
    (msg : CUpdMsg) (c : Chan) :
    (applyChannelUpdate env st update msg c).nodes = st.nodes := by
  by_cases hts : (msg.timestamp : Int) ≤ (halfOf c (msg.flags % 2)).last_timestamp
  · rw [acu_reject_ts env st update msg c hts]
  · by_cases hsig : env.checkCUSig (nodeIdAt c (msg.flags % 2)) update = true
    · rw [acu_accept env st update msg c (by omega) hsig]
    · rw [acu_reject_sig env st update msg c (by omega) (by simpa using hsig)]

theorem acu_pending_cann (env : Env) (st : RoutingState) (update : List Nat)
    (msg : CUpdMsg) (c : Chan) :
    (applyChannelUpdate env st update msg c).pending_cann = st.pending_cann := by
  by_cases hts : (msg.timestamp : Int) ≤ (halfOf c (msg.flags % 2)).last_timestamp
  · rw [acu_reject_ts env st update msg c hts]
  · by_cases hsig : env.checkCUSig (nodeIdAt c (msg.flags % 2)) update = true
    · rw [acu_accept env st update msg c (by omega) hsig]
    · rw [acu_reject_sig env st update msg c (by omega) (by simpa using hsig)]

theorem hcu_nodes (env : Env) (st : RoutingState) (update : List Nat) :
    (handle_channel_update env st update).nodes = st.nodes := by
  cases hp : env.parseCU update with
  | none => rw [hcu_parse_none env st update hp]
  | some msg =>
    by_cases hchain : msg.chain_hash = st.chain_hash
    · cases hchan : get_channel st msg.short_channel_id with
      | none =>
        cases hpend : find_pending_cannouncement st msg.short_channel_id with
        | none => rw [hcu_unknown env st update msg hp hchain hchan hpend]
        | some p =>
          rw [hcu_to_pending env st update msg p hp hchain (Or.inl hchan) hpend]
      | some c =>
        by_cases hpub : c.public
        · rw [hcu_to_apply env st update msg c hp hchain hchan (Or.inl hpub)]
          exact acu_nodes env st update msg c
        · cases hpend : find_pending_cannouncement st msg.short_channel_id with
          | some p =>
            rw [hcu_to_pending env st update msg p hp hchain
              (Or.inr ⟨c, hchan, by simpa using hpub⟩) hpend]
          | none =>
            rw [hcu_to_apply env st update msg c hp hchain hchan (Or.inr hpend)]
            exact acu_nodes env st update msg c
    · rw [hcu_chain_ne env st update msg hp hchain]

theorem hcu_pending_frame (env : Env) (st : RoutingState) (update : List Nat)
    (msg : CUpdMsg) (c : Chan) (hp : env.parseCU update = some msg)
    (hchain : msg.chain_hash = st.chain_hash)
    (hchan : get_channel st msg.short_channel_id = some c)
    (hdisp : c.public = true
             ∨ find_pending_cannouncement st msg.short_channel_id = none) :
    (handle_channel_update env st update).pending_cann = st.pending_cann := by
  rw [hcu_to_apply env st update msg c hp hchain hchan hdisp]
  exact acu_pending_cann env st update msg c

theorem hcu_map_scids (env : Env) (st : RoutingState) (update : List Nat) :
    (handle_channel_update env st update).chanmap.map (fun c : Chan => c.scid)
      = st.chanmap.map (fun c : Chan => c.scid) := by
  cases hp : env.parseCU update with
  | none => rw [hcu_parse_none env st update hp]
  | some msg =>
    by_cases hchain : msg.chain_hash = st.chain_hash
    · cases hchan : get_channel st msg.short_channel_id with
      | none =>
        cases hpend : find_pending_cannouncement st msg.short_channel_id with
        | none => rw [hcu_unknown env st update msg hp hchain hchan hpend]
        | some p =>
          rw [hcu_chanmap_of_pending env st update msg p hp hchain
            (Or.inl hchan) hpend]
      | some c =>
        have happly : (applyChannelUpdate env st update msg c).chanmap.map
            (fun c : Chan => c.scid) = st.chanmap.map (fun c : Chan => c.scid) := by
          by_cases hts : (msg.timestamp : Int)
              ≤ (halfOf c (msg.flags % 2)).last_timestamp
          · rw [acu_reject_ts env st update msg c hts]
          · by_cases hsig : env.checkCUSig (nodeIdAt c (msg.flags % 2)) update
                = true
            · rw [acu_accept env st update msg c (by omega) hsig]
              show (replaceFirstBy _ _ st.chanmap).map _ = _
              refine map_key_replaceFirstBy _ ?_
              intro a _ hpa
              show a.scid = (acceptedChan update msg c
                st.broadcasts.next_index).scid
              rw [acceptedChan_scid, get_channel_scid_eq hchan]
              simpa using hpa
            · rw [acu_reject_sig env st update msg c (by omega)
                (by simpa using hsig)]
        by_cases hpub : c.public
        · rw [hcu_to_apply env st update msg c hp hchain hchan (Or.inl hpub)]
          exact happly
        · cases hpend : find_pending_cannouncement st msg.short_channel_id with
          | some p =>
            rw [hcu_chanmap_of_pending env st update msg p hp hchain
              (Or.inr ⟨c, hchan, by simpa using hpub⟩) hpend]
          | none =>
            rw [hcu_to_apply env st update msg c hp hchain hchan (Or.inr hpend)]
            exact happly
    · rw [hcu_chain_ne env st update msg hp hchain]

theorem halfOf_set_connection_values_other (c : Chan) (i j b p d : Nat)
    (a : Bool) (ts m : Nat) (hi : i < 2) (hj : j < 2) (hij : i ≠ j) :
    halfOf (set_connection_values c i b p d a ts m) j = halfOf c j := by
  unfold set_connection_values
  exact halfOf_setHalf_other _ _ _ _ hi hj hij

theorem acceptedChan_half_other (update : List Nat) (msg : CUpdMsg) (c : Chan)
    (b : Nat) (j : Nat) (hj : j < 2) (hij : msg.flags % 2 ≠ j) :
    halfOf (acceptedChan update msg c b) j = halfOf c j := by
  unfold acceptedChan
  rw [halfOf_setHalf_other _ _ _ _ (by omega) hj hij]
  rw [halfOf_set_connection_values_other _ _ _ _ _ _ _ _ _ (by omega) hj hij]

theorem acceptedChan_unroutable (update : List Nat) (msg : CUpdMsg) (c : Chan)
    (b : Nat) :
    (halfOf (acceptedChan update msg c b) (msg.flags % 2)).unroutable_until
      = 0 := by
  rw [acceptedChan_half_self]
  show (halfOf (set_connection_values _ _ _ _ _ _ _ _) _).unroutable_until = _
  rw [halfOf_set_connection_values]
  split <;> rfl

/-- Effect of one handle_channel_update on a fixed channel and half: either
the half is untouched, or a strictly newer update was applied to it,
clearing the unroutable mark. -/
theorem hcu_half_effect (env : Env) (st : RoutingState) (update : List Nat)
    (scid dir : Nat) (c : Chan) (hdir : dir < 2)
    (hc : get_channel st scid = some c) :
    ∃ c2, get_channel (handle_channel_update env st update) scid = some c2
      ∧ c2.node0 = c.node0 ∧ c2.node1 = c.node1 ∧ c2.scid = c.scid
      ∧ (halfOf c2 dir = halfOf c dir
         ∨ ((halfOf c2 dir).unroutable_until = 0
            ∧ (halfOf c dir).last_timestamp
                < (halfOf c2 dir).last_timestamp)) := by
  have hsame : ∀ st2 : RoutingState, st2.chanmap = st.chanmap →
      ∃ c2, get_channel st2 scid = some c2
        ∧ c2.node0 = c.node0 ∧ c2.node1 = c.node1 ∧ c2.scid = c.scid
        ∧ (halfOf c2 dir = halfOf c dir
           ∨ ((halfOf c2 dir).unroutable_until = 0
              ∧ (halfOf c dir).last_timestamp
                  < (halfOf c2 dir).last_timestamp)) := by
    intro st2 hmap
    refine ⟨c, ?_, rfl, rfl, rfl, Or.inl rfl⟩
    show st2.chanmap.find? _ = _
    rw [hmap]
    exact hc
  cases hp : env.parseCU update with
  | none =>
    rw [hcu_parse_none env st update hp]
    exact hsame st rfl
  | some msg =>
    by_cases hchain : msg.chain_hash = st.chain_hash
    · cases hchan : get_channel st msg.short_channel_id with
      | none =>
        cases hpend : find_pending_cannouncement st msg.short_channel_id with
        | none =>
          rw [hcu_unknown env st update msg hp hchain hchan hpend]
          exact hsame st rfl
        | some p =>
          rw [hcu_to_pending env st update msg p hp hchain (Or.inl hchan) hpend]
          exact hsame _ rfl
      | some cm =>
        have happly :
            ∃ c2, get_channel (applyChannelUpdate env st update msg cm) scid
                = some c2
              ∧ c2.node0 = c.node0 ∧ c2.node1 = c.node1 ∧ c2.scid = c.scid
              ∧ (halfOf c2 dir = halfOf c dir
                 ∨ ((halfOf c2 dir).unroutable_until = 0
                    ∧ (halfOf c dir).last_timestamp
                        < (halfOf c2 dir).last_timestamp)) := by
          by_cases hts : (msg.timestamp : Int)
              ≤ (halfOf cm (msg.flags % 2)).last_timestamp
          · rw [acu_reject_ts env st update msg cm hts]
            exact hsame st rfl
          · by_cases hsig : env.checkCUSig (nodeIdAt cm (msg.flags % 2)) update
                = true
            · rw [acu_accept env st update msg cm (by omega) hsig]
              by_cases hscid : msg.short_channel_id = scid
              · have hceq : cm = c := by
                  rw [hscid] at hchan
                  rw [hchan] at hc
                  exact (Option.some_inj.1 hc)
                subst hceq
                refine ⟨acceptedChan update msg cm st.broadcasts.next_index,
                  ?_, ?_, ?_, ?_, ?_⟩
                · show (replaceFirstBy _ _ st.chanmap).find? _ = _
                  subst hscid
                  refine replaceFirstBy_find?_same hc ?_
                  rw [acceptedChan_scid, get_channel_scid_eq hc]
                  simp
                · rw [acceptedChan_node0]
                · rw [acceptedChan_node1]
                · rw [acceptedChan_scid]
                · by_cases hd : msg.flags % 2 = dir
                  · refine Or.inr ?_
                    rw [← hd]
                    rw [acceptedChan_unroutable, acceptedChan_last_timestamp]
                    exact ⟨rfl, by omega⟩
                  · refine Or.inl ?_
                    rw [acceptedChan_half_other update msg cm _ dir hdir hd]
              · refine ⟨c, ?_, rfl, rfl, rfl, Or.inl rfl⟩
                show (replaceFirstBy _ _ st.chanmap).find? _ = _
                rw [replaceFirstBy_find?_other]
                · exact hc
                · rw [acceptedChan_scid, get_channel_scid_eq hchan]
                  simpa using hscid
                · intro a _ hpa
                  have ha : a.scid = msg.short_channel_id := by simpa using hpa
                  simp only [ha]
                  simpa using hscid
            · rw [acu_reject_sig env st update msg cm (by omega)
                (by simpa using hsig)]
              exact hsame st rfl
        by_cases hpub : cm.public
        · rw [hcu_to_apply env st update msg cm hp hchain hchan (Or.inl hpub)]
          exact happly
        · cases hpend : find_pending_cannouncement st msg.short_channel_id with
          | some p =>
            rw [hcu_to_pending env st update msg p hp hchain
              (Or.inr ⟨cm, hchan, by simpa using hpub⟩) hpend]
            exact hsame _ rfl
          | none =>
            rw [hcu_to_apply env st update msg cm hp hchain hchan (Or.inr hpend)]
            exact happly
    · rw [hcu_chain_ne env st update msg hp hchain]
      exact hsame st rfl

/-! ### destroy_chan removes the scid from the endpoint arrays -/

theorem not_mem_eraseFirstBy_self {a : Nat} {l : List Nat} (hnodup : l.Nodup) :
    a ∉ eraseFirstBy (fun s => s == a) l := by
  induction l with
  | nil => simp [eraseFirstBy]
  | cons b r ih =>
    unfold eraseFirstBy
    by_cases hb : (b == a) = true
    · rw [if_pos hb]
      have hba : b = a := by simpa using hb
      have hbr : b ∉ r := (List.nodup_cons.1 hnodup).1
      rw [hba] at hbr
      exact hbr
    · rw [if_neg hb]
      intro hmem
      rcases List.mem_cons.1 hmem with h | h
      · exact hb (by simpa using h.symm)
      · exact ih (List.nodup_cons.1 hnodup).2 h

theorem get_node_unlinkChan_same (st : RoutingState) (nid scid : Nat) :
    get_node (unlinkChan st nid scid) nid
      = (get_node st nid).map
          (fun n => { n with
            chans := eraseFirstBy (fun s => s == scid) n.chans }) := by
  unfold unlinkChan modifyNode
  cases hg : get_node st nid with
  | none =>
    dsimp only
    exact hg
  | some n =>
    dsimp only
    show (replaceFirstBy _ _ st.nodes).find? _ = _
    refine replaceFirstBy_find?_same hg ?_
    show ((({ n with chans := _ } : Node)).id == nid) = true
    show (n.id == nid) = true
    rw [get_node_id_eq hg]
    simp

theorem get_node_unlinkChan_other (st : RoutingState) (nid scid nid2 : Nat)
    (hne : nid2 ≠ nid) :
    get_node (unlinkChan st nid scid) nid2 = get_node st nid2 := by
  unfold unlinkChan modifyNode
  cases hg : get_node st nid with
  | none => rfl
  | some n =>
    dsimp only
    show (replaceFirstBy _ _ st.nodes).find? _ = _
    rw [replaceFirstBy_find?_other]
    · rfl
    · show (({ n with chans := _ } : Node).id == nid2) = false
      show (n.id == nid2) = false
      rw [get_node_id_eq hg]
      simpa using fun h => hne h.symm
    · intro a _ hpa
      have ha : a.id = nid := by simpa using hpa
      simp only [ha]
      simpa using fun h => hne h.symm

theorem mem_nodes_chans_nodup {st : RoutingState} {nid scid : Nat} {m : Node}
    (hch : ∀ n ∈ st.nodes, n.chans.Nodup)
    (hm : m ∈ (unlinkChan st nid scid).nodes) : m.chans.Nodup := by
  rcases mem_unlinkChan_nodes hm with h | ⟨n, hget, heq⟩
  · exact hch m h
  · have hn : n ∈ st.nodes := List.mem_of_find?_eq_some hget
    rw [heq]
    exact (eraseFirstBy_sublist _ _).nodup (hch n hn)

theorem unlink_chain_no_scid (st : RoutingState) (scid : Nat) (n : Node)
    (nid0 nid1 : Nat)
    (hnodupN : (st.nodes.map (fun m : Node => m.id)).Nodup)
    (hch : ∀ m ∈ st.nodes, m.chans.Nodup)
    (hmem : n ∈ (unlinkChan (unlinkChan st nid0 scid) nid1 scid).nodes)
    (hid : n.id = nid0 ∨ n.id = nid1) : scid ∉ n.chans := by
  have hnodup1 : ((unlinkChan st nid0 scid).nodes.map
      (fun m : Node => m.id)).Nodup := by
    rw [unlinkChan_map_ids]
    exact hnodupN
  have hnodup2 : ((unlinkChan (unlinkChan st nid0 scid) nid1 scid).nodes.map
      (fun m : Node => m.id)).Nodup := by
    rw [unlinkChan_map_ids]
    exact hnodup1
  have hgself : get_node (unlinkChan (unlinkChan st nid0 scid) nid1 scid) n.id
      = some n := get_node_of_mem hnodup2 hmem
  by_cases h1 : n.id = nid1
  · rw [h1, get_node_unlinkChan_same] at hgself
    cases hg1 : get_node (unlinkChan st nid0 scid) nid1 with
    | none =>
      rw [hg1] at hgself
      simp at hgself
    | some m1 =>
      rw [hg1] at hgself
      have hn : n = { m1 with
          chans := eraseFirstBy (fun s => s == scid) m1.chans } := by
        have := Option.some_inj.1 hgself
        exact this.symm
      have hm1 : m1 ∈ (unlinkChan st nid0 scid).nodes :=
        List.mem_of_find?_eq_some hg1
      have hm1nodup : m1.chans.Nodup := mem_nodes_chans_nodup hch hm1
      rw [hn]
      exact not_mem_eraseFirstBy_self hm1nodup
  · have h0 : n.id = nid0 := by
      rcases hid with h | h
      · exact h
      · exact absurd h h1
    rw [h0] at hgself
    rw [get_node_unlinkChan_other _ _ _ _ (by rw [← h0]; exact h1)] at hgself
    rw [get_node_unlinkChan_same] at hgself
    cases hg0 : get_node st nid0 with
    | none =>
      rw [hg0] at hgself
      simp at hgself
    | some m0 =>
      rw [hg0] at hgself
      have hn : n = { m0 with
          chans := eraseFirstBy (fun s => s == scid) m0.chans } := by
        have := Option.some_inj.1 hgself
        exact this.symm
      have hm0 : m0 ∈ st.nodes := List.mem_of_find?_eq_some hg0
      rw [hn]
      exact not_mem_eraseFirstBy_self (hch m0 hm0)

theorem destroy_chan_endpoint_unlinked (st : RoutingState) (scid : Nat)
    (c : Chan) (h : get_channel st scid = some c)
    (hnodupN : (st.nodes.map (fun m : Node => m.id)).Nodup)
    (hch : ∀ m ∈ st.nodes, m.chans.Nodup) :
    ∀ n ∈ (destroy_chan st scid).nodes,
      (n.id = c.node0 ∨ n.id = c.node1) → scid ∉ n.chans := by
  intro n hn hid
  unfold destroy_chan at hn
  rw [h] at hn
  dsimp only at hn
  have hmem3 := mem_gcNode_nodes (mem_gcNode_nodes hn)
  have hmem2 : n ∈ (unlinkChan (unlinkChan st c.node0 scid) c.node1
      scid).nodes := hmem3
  exact unlink_chain_no_scid st scid n c.node0 c.node1 hnodupN hch hmem2 hid

/-! ### routing_failure reductions -/

theorem halfChanFrom_lt_two (nid : Nat) (c : Chan) : halfChanFrom nid c < 2 := by
  unfold halfChanFrom
  split <;> omega

theorem rfco_perm (env : Env) (st : RoutingState) (nid failcode : Nat)
    (c : Chan) (hP : failcode &&& PERM ≠ 0) :
    routing_failure_channel_out env st nid failcode c = (st, [c.scid]) := by
  unfold routing_failure_channel_out
  rw [if_neg hP]

theorem rfco_mark (env : Env) (st : RoutingState) (nid failcode : Nat)
    (c : Chan) (hP : failcode &&& PERM = 0) :
    routing_failure_channel_out env st nid failcode c =
      ({ st with chanmap := (replaceFirstBy (fun x => x.scid == c.scid)
          (setHalf c (halfChanFrom nid c)
            { halfOf c (halfChanFrom nid c) with
              unroutable_until := env.now + 20 }) st.chanmap) }, []) := by
  unfold routing_failure_channel_out
  rw [if_pos hP]
  simp only [setHalf_scid]

theorem rf_node_unknown (env : Env) (st : RoutingState)
    (erring scid failcode : Nat) (cu : List Nat)
    (h : get_node st erring = none) :
    routing_failure env st erring scid failcode cu = st := by
  unfold routing_failure
  rw [h]

theorem rf_single (env : Env) (st : RoutingState) (erring scid failcode : Nat)
    (cu : List Nat) (node : Node) (hnode : get_node st erring = some node)
    (hN : failcode &&& NODE = 0) :
    routing_failure env st erring scid failcode cu =
      (let step := match get_channel st scid with
        | none => (st, ([] : List Nat))
        | some c =>
          if c.node0 ≠ erring ∧ c.node1 ≠ erring then (st, [])
          else routing_failure_channel_out env st erring failcode c
       step.2.foldl (fun s v => destroy_chan s v)
         (if failcode &&& UPDATE ≠ 0 then
            if cu.length = 0 then step.1
            else if env.peekType cu ≠ WIRE_CHANNEL_UPDATE then step.1
            else handle_channel_update env step.1 cu
          else step.1)) := by
  unfold routing_failure
  rw [hnode]
  dsimp only
  rw [if_neg (show ¬(failcode &&& NODE ≠ 0) by simp [hN])]
  try rfl

theorem rf_update_step_facts (env : Env) (st : RoutingState) (failcode : Nat)
    (cu : List Nat) :
    let st2 := if failcode &&& UPDATE ≠ 0 then
        if cu.length = 0 then st
        else if env.peekType cu ≠ WIRE_CHANNEL_UPDATE then st
        else handle_channel_update env st cu
      else st
    st2.chanmap.map (fun x : Chan => x.scid)
        = st.chanmap.map (fun x : Chan => x.scid)
    ∧ st2.nodes = st.nodes := by
  dsimp only
  by_cases hU : failcode &&& UPDATE ≠ 0
  · rw [if_pos hU]
    by_cases hlen : cu.length = 0
    · rw [if_pos hlen]
      exact ⟨rfl, rfl⟩
    · rw [if_neg hlen]
      by_cases hpeek : env.peekType cu ≠ WIRE_CHANNEL_UPDATE
      · rw [if_pos hpeek]
        exact ⟨rfl, rfl⟩
      · rw [if_neg hpeek]
        exact ⟨hcu_map_scids env st cu, hcu_nodes env st cu⟩
  · rw [if_neg hU]
    exact ⟨rfl, rfl⟩

theorem rf_update_step_half (env : Env) (st : RoutingState) (failcode : Nat)
    (cu : List Nat) (scid dir : Nat) (c : Chan) (hdir : dir < 2)
    (hc : get_channel st scid = some c) :
    let st2 := if failcode &&& UPDATE ≠ 0 then
        if cu.length = 0 then st
        else if env.peekType cu ≠ WIRE_CHANNEL_UPDATE then st
        else handle_channel_update env st cu
      else st
    ∃ c2, get_channel st2 scid = some c2
      ∧ c2.node0 = c.node0 ∧ c2.node1 = c.node1 ∧ c2.scid = c.scid
      ∧ (halfOf c2 dir = halfOf c dir
         ∨ (failcode &&& UPDATE ≠ 0
            ∧ (halfOf c2 dir).unroutable_until = 0
            ∧ (halfOf c dir).last_timestamp
                < (halfOf c2 dir).last_timestamp)) := by
  dsimp only
  by_cases hU : failcode &&& UPDATE ≠ 0
  · rw [if_pos hU]
    by_cases hlen : cu.length = 0
    · rw [if_pos hlen]
      exact ⟨c, hc, rfl, rfl, rfl, Or.inl rfl⟩
    · rw [if_neg hlen]
      by_cases hpeek : env.peekType cu ≠ WIRE_CHANNEL_UPDATE
      · rw [if_pos hpeek]
        exact ⟨c, hc, rfl, rfl, rfl, Or.inl rfl⟩
      · rw [if_neg hpeek]
        obtain ⟨c2, h1, h2, h3, h4, h5⟩ :=
          hcu_half_effect env st cu scid dir c hdir hc
        refine ⟨c2, h1, h2, h3, h4, ?_⟩
        rcases h5 with h | h
        · exact Or.inl h
        · exact Or.inr ⟨hU, h.1, h.2⟩
  · rw [if_neg hU]
    exact ⟨c, hc, rfl, rfl, rfl, Or.inl rfl⟩

/-- C7 (amended): if the NODE bit of failcode is clear and the channel
identified by scid exists but does not connect to the erring node,
routing_failure leaves the routing state unchanged, provided the
channel_update attachment does not fire (UPDATE bit clear, or an empty
buffer, or a buffer that is not a channel_update message); with an
applicable attached update the state can change even for a disconnected
channel. -/
theorem c7_disconnected_scid_noop (env : Env) (st : RoutingState)
    (erring scid failcode : Nat) (cu : List Nat) (c : Chan)
    (hN : failcode &&& NODE = 0)
    (hchan : get_channel st scid = some c)
    (hnc : c.node0 ≠ erring ∧ c.node1 ≠ erring)
    (hsafe : failcode &&& UPDATE = 0 ∨ cu = []
             ∨ env.peekType cu ≠ WIRE_CHANNEL_UPDATE) :
    routing_failure env st erring scid failcode cu = st := by
  cases hg : get_node st erring with
  | none => exact rf_node_unknown env st erring scid failcode cu hg
  | some node =>
    rw [rf_single env st erring scid failcode cu node hg hN]
    dsimp only
    rw [hchan]
    dsimp only
    rw [if_pos hnc]
    rcases hsafe with hU | hcu | hpeek
    · rw [if_neg (show ¬(failcode &&& UPDATE ≠ 0) by simp [hU])]
      rfl
    · subst hcu
      by_cases hU2 : failcode &&& UPDATE ≠ 0
      · rw [if_pos hU2, if_pos (show (([] : List Nat)).length = 0 from rfl)]
        rfl
      · rw [if_neg hU2]
        rfl
    · by_cases hU2 : failcode &&& UPDATE ≠ 0
      · rw [if_pos hU2]
        by_cases hlen : cu.length = 0
        · rw [if_pos hlen]
          rfl
        · rw [if_neg hlen, if_pos hpeek]
          rfl
      · rw [if_neg hU2]
        rfl

/-- C6 (amended): on a routing_failure for a known erring node, NODE bit
clear, whose scid channel connects to it: with the PERM bit the channel is
destroyed — gone from the channel map and from both endpoints' channel
arrays; without PERM the erring node's outgoing half-edge is marked
unroutable_until = now + 20, unless an attached UPDATE channel_update is
accepted afterwards, in which case that half can end with unroutable_until
cleared to 0 and a strictly newer policy timestamp. -/
theorem c6_failure_deactivates_or_destroys (env : Env) (st : RoutingState)
    (erring scid failcode : Nat) (cu : List Nat) (node : Node) (c : Chan)
    (hnode : get_node st erring = some node)
    (hN : failcode &&& NODE = 0)
    (hchan : get_channel st scid = some c)
    (hconn : c.node0 = erring ∨ c.node1 = erring)
    (hnodupC : (st.chanmap.map (fun x : Chan => x.scid)).Nodup)
    (hnodupN : (st.nodes.map (fun m : Node => m.id)).Nodup)
    (hch : ∀ m ∈ st.nodes, m.chans.Nodup) :
    (failcode &&& PERM ≠ 0 →
      (∀ c2 ∈ (routing_failure env st erring scid failcode cu).chanmap,
         c2.scid ≠ scid)
      ∧ ∀ n ∈ (routing_failure env st erring scid failcode cu).nodes,
          (n.id = c.node0 ∨ n.id = c.node1) → scid ∉ n.chans)
    ∧ (failcode &&& PERM = 0 →
        ∃ c2, get_channel (routing_failure env st erring scid failcode cu)
            scid = some c2
          ∧ c2.node0 = c.node0 ∧ c2.node1 = c.node1
          ∧ ((halfOf c2 (halfChanFrom erring c)).unroutable_until
               = env.now + 20
             ∨ (failcode &&& UPDATE ≠ 0
                ∧ (halfOf c2 (halfChanFrom erring c)).unroutable_until = 0
                ∧ (halfOf c (halfChanFrom erring c)).last_timestamp
                    < (halfOf c2 (halfChanFrom erring c)).last_timestamp))) := by
  have hcsc : c.scid = scid := get_channel_scid_eq hchan
  have hncneg : ¬(c.node0 ≠ erring ∧ c.node1 ≠ erring) := by
    rcases hconn with h | h
    · intro hc2
      exact hc2.1 h
    · intro hc2
      exact hc2.2 h
  rw [rf_single env st erring scid failcode cu node hnode hN]
  dsimp only
  rw [hchan]
  dsimp only
  rw [if_neg hncneg]
  constructor
  · intro hP
    rw [rfco_perm env st erring failcode c hP]
    dsimp only [List.foldl]
    rw [hcsc]
    obtain ⟨hmap2, hnodes2⟩ := rf_update_step_facts env st failcode cu
    constructor
    · intro c2 hc2
      have hnodup2 : (((if failcode &&& UPDATE ≠ 0 then
          if cu.length = 0 then st
          else if env.peekType cu ≠ WIRE_CHANNEL_UPDATE then st
          else handle_channel_update env st cu
          else st)).chanmap.map (fun x : Chan => x.scid)).Nodup := by
        rw [hmap2]
        exact hnodupC
      have hgone := destroy_chan_scid_gone _ scid hnodup2 c2 hc2
      exact hgone
    · intro n hn hid
      obtain ⟨c2, hc2, hn0, hn1, hsc2, _⟩ :=
        rf_update_step_half env st failcode cu scid (halfChanFrom erring c) c
          (halfChanFrom_lt_two erring c) hchan
      have hnodupN2 : (((if failcode &&& UPDATE ≠ 0 then
          if cu.length = 0 then st
          else if env.peekType cu ≠ WIRE_CHANNEL_UPDATE then st
          else handle_channel_update env st cu
          else st)).nodes.map (fun m : Node => m.id)).Nodup := by
        rw [hnodes2]
        exact hnodupN
      have hch2 : ∀ m ∈ ((if failcode &&& UPDATE ≠ 0 then
          if cu.length = 0 then st
          else if env.peekType cu ≠ WIRE_CHANNEL_UPDATE then st
          else handle_channel_update env st cu
          else st)).nodes, m.chans.Nodup := by
        rw [hnodes2]
        exact hch
      refine destroy_chan_endpoint_unlinked _ scid c2 hc2 hnodupN2 hch2
        n hn ?_
      rw [hn0, hn1]
      exact hid
  · intro hP
    rw [rfco_mark env st erring failcode c hP]
    dsimp only [List.foldl]
    rw [hcsc]
    have hcM : get_channel
        { st with chanmap := (replaceFirstBy (fun x => x.scid == scid)
            (setHalf c (halfChanFrom erring c)
              { halfOf c (halfChanFrom erring c) with
                unroutable_until := env.now + 20 }) st.chanmap) } scid
        = some (setHalf c (halfChanFrom erring c)
            { halfOf c (halfChanFrom erring c) with
              unroutable_until := env.now + 20 }) := by
      show (replaceFirstBy _ _ st.chanmap).find? _ = _
      refine replaceFirstBy_find?_same hchan ?_
      rw [setHalf_scid, hcsc]
      simp
    obtain ⟨c2, hc2, hn0, hn1, hsc2, heff⟩ :=
      rf_update_step_half env _ failcode cu scid (halfChanFrom erring c) _
        (halfChanFrom_lt_two erring c) hcM
    refine ⟨c2, hc2, ?_, ?_, ?_⟩
    · rw [hn0]
      exact setHalf_node0 c _ _
    · rw [hn1]
      exact setHalf_node1 c _ _
    · rcases heff with h | ⟨hU, h0, hlt⟩
      · refine Or.inl ?_
        rw [h, halfOf_setHalf_same]
      · refine Or.inr ⟨hU, h0, ?_⟩
        rw [halfOf_setHalf_same] at hlt
        exact hlt

/-! ### get_route materialization lemmas -/

theorem getLast?_cons_or {α : Type} (y : α) (l : List α) :
    (y :: l).getLast? = l.getLast?.or (some y) := by
  cases l with
  | nil => rfl
  | cons b t =>
    rw [List.getLast?_cons_cons]
    cases hg : (b :: t).getLast? with
    | none =>
      exfalso
      have : b :: t ≠ [] := by simp
      rw [← List.getLast?_isSome] at this
      rw [hg] at this
      simp at this
    | some z => rfl

theorem materializeHops_last (st : RoutingState) :
    ∀ (l : List Nat) (nid amt dly : Nat) (hops : List RouteHop)
      (res : Nat × Nat × Nat × List RouteHop),
    materializeHops st l (nid, amt, dly, hops) = some res →
    res.2.2.2.getLast? = hops.getLast?.or
      (l.head?.map (fun cscid => ⟨cscid, nid, amt, dly⟩)) := by
  intro l
  induction l with
  | nil =>
    intro nid amt dly hops res h
    have h2 : some (nid, amt, dly, hops) = some res := h
    have h3 := Option.some_inj.1 h2
    rw [← h3]
    simp
  | cons cscid rest ih =>
    intro nid amt dly hops res h
    unfold materializeHops at h
    cases hc : get_channel st cscid with
    | none =>
      rw [hc] at h
      exact absurd h (by simp)
    | some c =>
      rw [hc] at h
      dsimp only at h
      have hlast := ih _ _ _ _ _ h
      rw [hlast]
      rw [getLast?_cons_or]
      cases hg : hops.getLast? with
      | none => simp
      | some z => rfl

theorem materializeHops_chain (st : RoutingState)
    (R : RouteHop → RouteHop → Prop)
    (L : Nat → Nat → RouteHop → Prop)
    (hRL : ∀ (x y : RouteHop), L x.amount x.delay y → R x y)
    (hstep : ∀ (cscid nid amt dly : Nat) (c : Chan),
      get_channel st cscid = some c →
      L (amt + connection_fee (halfOf c (halfChanTo nid c)) amt)
        (dly + (halfOf c (halfChanTo nid c)).delay)
        ⟨cscid, nid, amt, dly⟩) :
    ∀ (l : List Nat) (nid amt dly : Nat) (hops : List RouteHop)
      (res : Nat × Nat × Nat × List RouteHop),
    materializeHops st l (nid, amt, dly, hops) = some res →
    List.Chain' R hops →
    (∀ y, hops.head? = some y → L amt dly y) →
    List.Chain' R res.2.2.2 := by
  intro l
  induction l with
  | nil =>
    intro nid amt dly hops res h hch hlink
    have h2 : some (nid, amt, dly, hops) = some res := h
    have h3 := Option.some_inj.1 h2
    rw [← h3]
    exact hch
  | cons cscid rest ih =>
    intro nid amt dly hops res h hch hlink
    unfold materializeHops at h
    cases hc : get_channel st cscid with
    | none =>
      rw [hc] at h
      exact absurd h (by simp)
    | some c =>
      rw [hc] at h
      dsimp only at h
      refine ih _ _ _ _ _ h ?_ ?_
      · cases hops with
        | nil => simp
        | cons y t =>
          refine List.chain'_cons.2 ⟨?_, hch⟩
          exact hRL _ _ (hlink y rfl)
      · intro y hy
        have hxy : (⟨cscid, nid, amt, dly⟩ : RouteHop) = y := by
          simpa using hy
        rw [← hxy]
        exact hstep cscid nid amt dly c hc

theorem layoutRoute_ne_nil (st : RoutingState) (b : Bfg) :
    ∀ (n nid seedid : Nat) (r : List Nat),
    layoutRoute st b n nid seedid = some r → nid ≠ seedid → r ≠ [] := by
  intro n
  cases n with
  | zero =>
    intro nid seedid r h hne
    unfold layoutRoute at h
    rw [if_neg hne] at h
    exact absurd h (by simp)
  | succ m =>
    intro nid seedid r h hne
    unfold layoutRoute at h
    cases hp : (bfgGet b nid (m + 1)).prev with
    | none =>
      rw [hp] at h
      exact absurd h (by simp)
    | some cscid =>
      rw [hp] at h
      dsimp only at h
      cases hc : get_channel st cscid with
      | none =>
        rw [hc] at h
        exact absurd h (by simp)
      | some c =>
        rw [hc] at h
        dsimp only at h
        rcases Option.map_eq_some'.1 h with ⟨r2, _, hr⟩
        rw [← hr]
        simp

theorem find_route_ne_nil (env : Env) (st : RoutingState) (fromN toN : Nat)
    (msatoshi : Nat) (riskfactor fuzz : ℚ) (route : List Nat)
    (h : find_route env st fromN toN msatoshi riskfactor fuzz = some route) :
    route ≠ [] := by
  unfold find_route at h
  cases hto : get_node st toN with
  | none =>
    rw [hto] at h
    exact absurd h (by simp)
  | some src =>
    rw [hto] at h
    dsimp only at h
    cases hfrom : get_node st fromN with
    | none =>
      rw [hfrom] at h
      exact absurd h (by simp)
    | some dst =>
      rw [hfrom] at h
      dsimp only at h
      by_cases hid : dst.id = src.id
      · rw [if_pos hid] at h
        exact absurd h (by simp)
      · rw [if_neg hid] at h
        by_cases hmax : MAX_MSATOSHI ≤ msatoshi
        · rw [if_pos hmax] at h
          exact absurd h (by simp)
        · rw [if_neg hmax] at h
          unfold find_route_finish at h
          dsimp only at h
          split at h
          · exact absurd h (by simp)
          · exact layoutRoute_ne_nil st _ _ _ _ _ h hid

/-- C2: every route returned by get_route is nonempty, its last hop
carries exactly the requested msatoshi amount and the requested final
cltv, and walking from the source each hop's amount (resp. delay) is the
next hop's amount (resp. delay) plus the fee (resp. delay) of the next
hop's channel half-edge. -/
theorem c2_route_fee_telescope (env : Env) (st : RoutingState)
    (source destination msatoshi : Nat) (riskfactor : ℚ) (final_cltv : Nat)
    (fuzz : ℚ) (hops : List RouteHop)
    (h : get_route env st source destination msatoshi riskfactor final_cltv
        fuzz = some hops) :
    hops ≠ []
    ∧ (∀ last, hops.getLast? = some last →
        last.amount = msatoshi ∧ last.delay = final_cltv)
    ∧ List.Chain' (fun x y : RouteHop =>
        ∃ c, get_channel st y.channel_id = some c
          ∧ x.amount = y.amount
              + connection_fee (halfOf c (halfChanTo y.nodeid c)) y.amount
          ∧ x.delay = y.delay + (halfOf c (halfChanTo y.nodeid c)).delay)
        hops := by
  unfold get_route at h
  cases hfr : find_route env st source destination msatoshi
      (riskfactor / (BLOCKS_PER_YEAR : ℚ) / 10000) fuzz with
  | none =>
    rw [hfr] at h
    exact absurd h (by simp)
  | some route =>
    rw [hfr] at h
    dsimp only at h
    cases hm : materializeHops st route.reverse
        (destination, msatoshi, final_cltv, []) with
    | none =>
      rw [hm] at h
      exact absurd h (by simp)
    | some res =>
      rw [hm] at h
      obtain ⟨nid, a, d, hps⟩ := res
      dsimp only at h
      by_cases hnid : nid = source
      · rw [if_pos hnid] at h
        have hhops : hps = hops := Option.some_inj.1 h
        have hroute := find_route_ne_nil env st source destination msatoshi
          (riskfactor / (BLOCKS_PER_YEAR : ℚ) / 10000) fuzz route hfr
        have hrev : route.reverse ≠ [] := by
          intro hc
          exact hroute (by simpa using hc)
        cases hhead : route.reverse.head? with
        | none =>
          exfalso
          exact hrev (List.head?_eq_none_iff.1 hhead)
        | some cscid0 =>
          have hlast := materializeHops_last st route.reverse destination
            msatoshi final_cltv [] (nid, a, d, hps) hm
          rw [hhead] at hlast
          have hlast2 : hps.getLast?
              = some ⟨cscid0, destination, msatoshi, final_cltv⟩ := by
            simpa using hlast
          refine ⟨?_, ?_, ?_⟩
          · rw [← hhops]
            intro hempty
            rw [hempty] at hlast2
            simp at hlast2
          · intro last hl
            rw [← hhops] at hl
            rw [hlast2] at hl
            have : (⟨cscid0, destination, msatoshi, final_cltv⟩ : RouteHop)
                = last := Option.some_inj.1 hl
            rw [← this]
            exact ⟨rfl, rfl⟩
          · have hchain := materializeHops_chain st
              (fun x y : RouteHop =>
                ∃ c, get_channel st y.channel_id = some c
                  ∧ x.amount = y.amount + connection_fee
                      (halfOf c (halfChanTo y.nodeid c)) y.amount
                  ∧ x.delay = y.delay
                      + (halfOf c (halfChanTo y.nodeid c)).delay)
              (fun amt dly y =>
                ∃ c, get_channel st y.channel_id = some c
                  ∧ amt = y.amount + connection_fee
                      (halfOf c (halfChanTo y.nodeid c)) y.amount
                  ∧ dly = y.delay
                      + (halfOf c (halfChanTo y.nodeid c)).delay)
              (by intro x y hxy; exact hxy)
              (by intro cscid nid2 amt dly c hc; exact ⟨c, hc, rfl, rfl⟩)
              route.reverse destination msatoshi final_cltv []
              (nid, a, d, hps) hm (by simp)
              (by intro y hy; simp at hy)
            rw [← hhops]
            exact hchain
      · rw [if_neg hnid] at h
        exact absurd h (by simp)

/-! ### Bfg scratch lemmas and the prev-chain invariant -/

theorem bfgGet_set_same (b : Bfg) (n h : Nat) (e : BfgEntry) :
    bfgGet (bfgSet b n h e) n h = e := by
  unfold bfgGet bfgSet
  simp [List.find?_cons]

theorem bfgGet_set_other (b : Bfg) (n h : Nat) (e : BfgEntry) (n2 h2 : Nat)
    (hne : ¬((n2, h2) = (n, h))) :
    bfgGet (bfgSet b n h e) n2 h2 = bfgGet b n2 h2 := by
  unfold bfgGet bfgSet
  have hb : ((((n, h), e) : (Nat × Nat) × BfgEntry).1 == (n2, h2)) = false := by
    simp
    intro hn
    intro hh
    exact hne (by rw [hn, hh])
  rw [List.find?_cons, hb]

theorem bfgGet_cleared (n h : Nat) :
    bfgGet clearedBfg n h = ⟨INFINITE, 0, none⟩ := rfl

theorem bfgGet_set_lt (b : Bfg) (n h : Nat) (e : BfgEntry) (n2 h2 : Nat)
    (he : e.total < INFINITE)
    (hold : (bfgGet b n2 h2).total < INFINITE) :
    (bfgGet (bfgSet b n h e) n2 h2).total < INFINITE := by
  by_cases hc : (n2, h2) = (n, h)
  · have hn : n2 = n := congrArg Prod.fst hc
    have hh : h2 = h := congrArg Prod.snd hc
    rw [hn, hh, bfgGet_set_same]
    exact he
  · rw [bfgGet_set_other b n h e n2 h2 hc]
    exact hold

theorem foldl_mem_inv {α β : Type} (P : β → Prop) (f : β → α → β) :
    ∀ (l : List α) (b : β), (∀ x a, a ∈ l → P x → P (f x a)) → P b →
      P (l.foldl f b) := by
  intro l
  induction l with
  | nil =>
    intro b _ hb
    exact hb
  | cons a r ih =>
    intro b hstep hb
    exact ih (f b a)
      (fun x a2 ha2 => hstep x a2 (List.mem_cons_of_mem a ha2))
      (hstep b a (List.mem_cons_self a r) hb)

theorem halfChanFrom_nodeIdAt_halfChanTo (n : Nat) (c : Chan)
    (hinc : n = c.node0 ∨ n = c.node1) :
    halfChanFrom (nodeIdAt c (halfChanTo n c)) c = halfChanTo n c := by
  by_cases h1 : c.node1 = n
  · simp [halfChanTo, halfChanFrom, nodeIdAt, h1]
  · have h0 : n = c.node0 := by
      rcases hinc with h | h
      · exact h
      · exact absurd h.symm h1
    have hne : c.node0 ≠ c.node1 := by
      intro hc
      refine h1 ?_
      rw [← hc]
      exact h0.symm
    simp [halfChanTo, halfChanFrom, nodeIdAt, h1, hne]

theorem other_node_nodeIdAt (n : Nat) (c : Chan)
    (hinc : n = c.node0 ∨ n = c.node1) :
    other_node (nodeIdAt c (halfChanTo n c)) c = n := by
  by_cases h1 : c.node1 = n
  · simp [other_node, halfChanTo, nodeIdAt, h1]
  · have h0 : n = c.node0 := by
      rcases hinc with h | h
      · exact h
      · exact absurd h.symm h1
    have hne : c.node0 ≠ c.node1 := by
      intro hc
      refine h1 ?_
      rw [← hc]
      exact h0.symm
    have hne2 : c.node1 ≠ c.node0 := fun hc => hne hc.symm
    simp [other_node, halfChanTo, nodeIdAt, h1, hne, hne2, h0]

theorem bfgPrevOk_init (env : Env) (st : RoutingState) (seedid msat : Nat)
    (hmsat : msat < INFINITE) :
    bfgPrevOk env st seedid
      (bfgSet clearedBfg seedid 0 ⟨msat, 0, none⟩) := by
  constructor
  · intro n h
    by_cases hc : (n, h) = (seedid, 0)
    · have hn : n = seedid := congrArg Prod.fst hc
      have hh : h = 0 := congrArg Prod.snd hc
      rw [hn, hh, bfgGet_set_same]
      exact Nat.le_of_lt hmsat
    · rw [bfgGet_set_other _ _ _ _ _ _ hc, bfgGet_cleared]
  · intro n h htot
    by_cases hc : (n, h) = (seedid, 0)
    · have hn : n = seedid := congrArg Prod.fst hc
      have hh : h = 0 := congrArg Prod.snd hc
      constructor
      · intro _
        exact hn
      · intro h2 hh2
        rw [hh] at hh2
        exact absurd hh2 (by omega)
    · rw [bfgGet_set_other _ _ _ _ _ _ hc, bfgGet_cleared] at htot
      exact absurd htot (Nat.lt_irrefl _)

theorem bfgPrevOk_set (env : Env) (st : RoutingState) (seedid : Nat)
    (x : Bfg) (hx : bfgPrevOk env st seedid x) (n : Nat) (c : Chan)
    (h tot rk : Nat)
    (hchan : get_channel st c.scid = some c)
    (hrout : hc_is_routable (halfOf c (halfChanTo n c)) env.now = true)
    (hinc : n = c.node0 ∨ n = c.node1)
    (htot : tot < INFINITE)
    (hlow : (bfgGet x n h).total < INFINITE) :
    bfgPrevOk env st seedid
      (bfgSet x (nodeIdAt c (halfChanTo n c)) (h + 1)
        ⟨tot, rk, some c.scid⟩) := by
  constructor
  · intro n2 h2
    by_cases hc2 : (n2, h2) = (nodeIdAt c (halfChanTo n c), h + 1)
    · have hn2 : n2 = nodeIdAt c (halfChanTo n c) := congrArg Prod.fst hc2
      have hh2 : h2 = h + 1 := congrArg Prod.snd hc2
      rw [hn2, hh2, bfgGet_set_same]
      exact Nat.le_of_lt htot
    · rw [bfgGet_set_other _ _ _ _ _ _ hc2]
      exact hx.1 n2 h2
  · intro n2 h2 htot2
    by_cases hc2 : (n2, h2) = (nodeIdAt c (halfChanTo n c), h + 1)
    · have hn2 : n2 = nodeIdAt c (halfChanTo n c) := congrArg Prod.fst hc2
      have hh2 : h2 = h + 1 := congrArg Prod.snd hc2
      constructor
      · intro h0
        rw [hh2] at h0
        exact absurd h0 (by omega)
      · intro h3 hh3
        have hh3' : h3 = h := by omega
        refine ⟨c.scid, c, ?_, hchan, ?_, ?_, ?_⟩
        · rw [hn2, hh2, bfgGet_set_same]
        · rw [hn2]
          unfold nodeIdAt
          split
          · exact Or.inl rfl
          · exact Or.inr rfl
        · rw [hn2, halfChanFrom_nodeIdAt_halfChanTo n c hinc]
          exact hrout
        · rw [hn2, hh3', other_node_nodeIdAt n c hinc]
          rw [bfgGet_set_other _ _ _ _ _ _
            (by intro hcc; have := congrArg Prod.snd hcc; omega)]
          exact hlow
    · rw [bfgGet_set_other _ _ _ _ _ _ hc2] at htot2
      obtain ⟨hz, hs⟩ := hx.2 n2 h2 htot2
      constructor
      · exact hz
      · intro h3 hh3
        obtain ⟨cscid2, c2, hprev2, hchan2, hinc2, hrout2, hlow2⟩ :=
          hs h3 hh3
        refine ⟨cscid2, c2, ?_, hchan2, hinc2, hrout2, ?_⟩
        · rw [bfgGet_set_other _ _ _ _ _ _ hc2]
          exact hprev2
        · exact bfgGet_set_lt _ _ _ _ _ _ htot hlow2

theorem bfg_one_edge_inv (env : Env) (st : RoutingState) (rf fz : ℚ)
    (seedid : Nat) (n : Nat) (c : Chan)
    (hchan : get_channel st c.scid = some c)
    (hrout : hc_is_routable (halfOf c (halfChanTo n c)) env.now = true)
    (hinc : n = c.node0 ∨ n = c.node1)
    (b : Bfg) (hb : bfgPrevOk env st seedid b) :
    bfgPrevOk env st seedid
      (bfg_one_edge env rf fz n c (halfChanTo n c) b) := by
  unfold bfg_one_edge
  refine foldl_mem_inv (bfgPrevOk env st seedid) _ _ b ?_ hb
  intro x h _ hx
  dsimp only
  split
  · exact hx
  · split
    · exact hx
    · split
      · rename_i hninf hmax hbetter
        have hMI : MAX_MSATOSHI < INFINITE := by decide
        refine bfgPrevOk_set env st seedid x hx n c h _ _ hchan hrout hinc
          ?_ ?_
        · omega
        · have hle := hx.1 n h
          omega
      · exact hx

theorem bfgRun_inv (env : Env) (st : RoutingState) (rf fz : ℚ)
    (seedid : Nat)
    (hadj : ∀ nd ∈ st.nodes, ∀ cscid ∈ nd.chans, ∀ c : Chan,
      get_channel st cscid = some c → nd.id = c.node0 ∨ nd.id = c.node1)
    (b : Bfg) (hb : bfgPrevOk env st seedid b) :
    bfgPrevOk env st seedid (bfgRun env st rf fz b) := by
  unfold bfgRun
  refine foldl_mem_inv (bfgPrevOk env st seedid) _ _ b ?_ hb
  intro x nd hnd hx
  refine foldl_mem_inv (bfgPrevOk env st seedid) _ _ x ?_ hx
  intro y cscid hcscid hy
  dsimp only
  cases hc : get_channel st cscid with
  | none => exact hy
  | some chan =>
    dsimp only
    split
    · rename_i hroutable
      have hscid : chan.scid = cscid := get_channel_scid_eq hc
      have hchan2 : get_channel st chan.scid = some chan := by
        rw [hscid]
        exact hc
      exact bfg_one_edge_inv env st rf fz seedid nd.id chan hchan2
        hroutable (hadj nd hnd cscid hcscid chan hc) y hy
    · exact hy

theorem layoutRoute_routable (env : Env) (st : RoutingState) (seedid : Nat)
    (b : Bfg) (hInv : bfgPrevOk env st seedid b) :
    ∀ (h nid : Nat) (r : List Nat), (bfgGet b nid h).total < INFINITE →
      layoutRoute st b h nid seedid = some r →
      routablePath st env.now nid r seedid = true ∧ r.length = h := by
  intro h
  induction h with
  | zero =>
    intro nid r htot hl
    have hn : nid = seedid := (hInv.2 nid 0 htot).1 rfl
    unfold layoutRoute at hl
    rw [if_pos hn] at hl
    have hr : ([] : List Nat) = r := Option.some_inj.1 hl
    rw [← hr]
    constructor
    · unfold routablePath
      simp [hn]
    · rfl
  | succ m ih =>
    intro nid r htot hl
    obtain ⟨cscid, c, hprev, hchan, hinc2, hrout, hlow⟩ :=
      (hInv.2 nid (m + 1) htot).2 m rfl
    unfold layoutRoute at hl
    rw [hprev] at hl
    dsimp only at hl
    rw [hchan] at hl
    dsimp only at hl
    rcases Option.map_eq_some'.1 hl with ⟨r2, hl2, hr⟩
    obtain ⟨hrp2, hlen2⟩ := ih (other_node nid c) r2 hlow hl2
    rw [← hr]
    constructor
    · unfold routablePath
      rw [hchan]
      dsimp only
      have hbinc : (nid == c.node0 || nid == c.node1) = true := by
        rcases hinc2 with hi | hi <;> simp [hi]
      simp [hbinc, hrout, hrp2]
    · simp [hlen2]

theorem find_route_sound (env : Env) (st : RoutingState) (fromN toN : Nat)
    (msatoshi : Nat) (riskfactor fuzz : ℚ) (route : List Nat)
    (hadj : ∀ nd ∈ st.nodes, ∀ cscid ∈ nd.chans, ∀ c : Chan,
      get_channel st cscid = some c → nd.id = c.node0 ∨ nd.id = c.node1)
    (h : find_route env st fromN toN msatoshi riskfactor fuzz
        = some route) :
    route.length ≤ ROUTING_MAX_HOPS
    ∧ routablePath st env.now fromN route toN = true := by
  unfold find_route at h
  cases hto : get_node st toN with
  | none =>
    rw [hto] at h
    exact absurd h (by simp)
  | some src =>
    rw [hto] at h
    dsimp only at h
    cases hfrom : get_node st fromN with
    | none =>
      rw [hfrom] at h
      exact absurd h (by simp)
    | some dst =>
      rw [hfrom] at h
      dsimp only at h
      by_cases hid : dst.id = src.id
      · rw [if_pos hid] at h
        exact absurd h (by simp)
      · rw [if_neg hid] at h
        by_cases hmax : MAX_MSATOSHI ≤ msatoshi
        · rw [if_pos hmax] at h
          exact absurd h (by simp)
        · rw [if_neg hmax] at h
          have hMI : MAX_MSATOSHI < INFINITE := by decide
          have hInv : bfgPrevOk env st src.id
              ((List.range ROUTING_MAX_HOPS).foldl
                (fun b _ => bfgRun env st riskfactor fuzz b)
                (bfgSet clearedBfg src.id 0 ⟨msatoshi, 0, none⟩)) := by
            refine foldl_mem_inv (bfgPrevOk env st src.id) _ _ _ ?_ ?_
            · intro x i _ hx
              exact bfgRun_inv env st riskfactor fuzz src.id hadj x hx
            · exact bfgPrevOk_init env st src.id msatoshi (by omega)
          unfold find_route_finish at h
          dsimp only at h
          have hbest : ((List.range ROUTING_MAX_HOPS).foldl
              (fun best i =>
                if (bfgGet ((List.range ROUTING_MAX_HOPS).foldl
                    (fun b _ => bfgRun env st riskfactor fuzz b)
                    (bfgSet clearedBfg src.id 0 ⟨msatoshi, 0, none⟩))
                    dst.id (i + 1)).total
                    < (bfgGet ((List.range ROUTING_MAX_HOPS).foldl
                        (fun b _ => bfgRun env st riskfactor fuzz b)
                        (bfgSet clearedBfg src.id 0 ⟨msatoshi, 0, none⟩))
                        dst.id best).total then i + 1
                else best) 0) ≤ ROUTING_MAX_HOPS := by
            refine foldl_mem_inv (fun x => x ≤ ROUTING_MAX_HOPS) _ _ 0 ?_
              (by omega)
            intro x i hi hx
            have hilt : i < ROUTING_MAX_HOPS := List.mem_range.1 hi
            split
            · omega
            · exact hx
          split at h
          · exact absurd h (by simp)
          · rename_i hninf
            have htot : (bfgGet ((List.range ROUTING_MAX_HOPS).foldl
                (fun b _ => bfgRun env st riskfactor fuzz b)
                (bfgSet clearedBfg src.id 0 ⟨msatoshi, 0, none⟩))
                dst.id ((List.range ROUTING_MAX_HOPS).foldl
                  (fun best i =>
                    if (bfgGet ((List.range ROUTING_MAX_HOPS).foldl
                        (fun b _ => bfgRun env st riskfactor fuzz b)
                        (bfgSet clearedBfg src.id 0 ⟨msatoshi, 0, none⟩))
                        dst.id (i + 1)).total
                        < (bfgGet ((List.range ROUTING_MAX_HOPS).foldl
                            (fun b _ => bfgRun env st riskfactor fuzz b)
                            (bfgSet clearedBfg src.id 0 ⟨msatoshi, 0, none⟩))
                            dst.id best).total then i + 1
                    else best) 0)).total < INFINITE := by omega
            obtain ⟨hpath, hlen⟩ := layoutRoute_routable env st src.id _
              hInv _ dst.id route htot h
            have hfromid : dst.id = fromN := get_node_id_eq hfrom
            have htoid : src.id = toN := get_node_id_eq hto
            rw [hfromid, htoid] at hpath
            constructor
            · rw [hlen]
              exact hbest
            · exact hpath

theorem find_route_none (env : Env) (st : RoutingState) (fromN toN : Nat)
    (msat : Nat) (rf fz : ℚ)
    (hcond : get_node st fromN = none ∨ get_node st toN = none
      ∨ fromN = toN ∨ MAX_MSATOSHI ≤ msat) :
    find_route env st fromN toN msat rf fz = none := by
  unfold find_route
  cases hto : get_node st toN with
  | none => rfl
  | some src =>
    dsimp only
    cases hfrom : get_node st fromN with
    | none => rfl
    | some dst =>
      dsimp only
      rcases hcond with hc | hc | hc | hc
      · rw [hfrom] at hc
        exact absurd hc (by simp)
      · rw [hto] at hc
        exact absurd hc (by simp)
      · have hids : dst.id = src.id := by
          rw [get_node_id_eq hfrom, get_node_id_eq hto, hc]
        rw [if_pos hids]
      · by_cases hid : dst.id = src.id
        · rw [if_pos hid]
        · rw [if_neg hid, if_pos hc]

theorem find_route_guards (env : Env) (st : RoutingState) (fromN toN : Nat)
    (msat : Nat) (rf fz : ℚ) (route : List Nat)
    (h : find_route env st fromN toN msat rf fz = some route) :
    get_node st fromN ≠ none ∧ get_node st toN ≠ none
    ∧ fromN ≠ toN ∧ msat < MAX_MSATOSHI := by
  unfold find_route at h
  cases hto : get_node st toN with
  | none =>
    rw [hto] at h
    exact absurd h (by simp)
  | some src =>
    rw [hto] at h
    dsimp only at h
    cases hfrom : get_node st fromN with
    | none =>
      rw [hfrom] at h
      exact absurd h (by simp)
    | some dst =>
      rw [hfrom] at h
      dsimp only at h
      by_cases hid : dst.id = src.id
      · rw [if_pos hid] at h
        exact absurd h (by simp)
      · rw [if_neg hid] at h
        by_cases hmax : MAX_MSATOSHI ≤ msat
        · rw [if_pos hmax] at h
          exact absurd h (by simp)
        · refine ⟨by simp, by simp, ?_, by omega⟩
          intro heq
          refine hid ?_
          rw [get_node_id_eq hfrom, get_node_id_eq hto, heq]

theorem materializeHops_map_channel (st : RoutingState) :
    ∀ (l : List Nat) (nid amt dly : Nat) (hops : List RouteHop)
      (res : Nat × Nat × Nat × List RouteHop),
    materializeHops st l (nid, amt, dly, hops) = some res →
    res.2.2.2.map (fun hp : RouteHop => hp.channel_id)
      = l.reverse ++ hops.map (fun hp : RouteHop => hp.channel_id) := by
  intro l
  induction l with
  | nil =>
    intro nid amt dly hops res h
    have h2 : some (nid, amt, dly, hops) = some res := h
    have h3 := Option.some_inj.1 h2
    rw [← h3]
    simp
  | cons cscid rest ih =>
    intro nid amt dly hops res h
    unfold materializeHops at h
    cases hc : get_channel st cscid with
    | none =>
      rw [hc] at h
      exact absurd h (by simp)
    | some c =>
      rw [hc] at h
      dsimp only at h
      have hmap := ih _ _ _ _ _ h
      rw [hmap]
      simp

/-- C1 (amended): get_route returns none whenever the source is unknown,
the destination is unknown, source and destination coincide, or the amount
is at least 2^40; and every returned route is a nonempty routable path of
at most ROUTING_MAX_HOPS hops from source to destination (so none is also
returned when no such path exists).  The converse — a route is always
found when a short routable path exists and the four guards hold — fails
near the amount cap, where the fee-added total overflows the search's
MAX_MSATOSHI bound. -/
theorem c1_get_route_guards (env : Env) (st : RoutingState)
    (source destination msatoshi : Nat) (riskfactor : ℚ) (final_cltv : Nat)
    (fuzz : ℚ)
    (hadj : ∀ nd ∈ st.nodes, ∀ cscid ∈ nd.chans, ∀ c : Chan,
      get_channel st cscid = some c → nd.id = c.node0 ∨ nd.id = c.node1) :
    ((get_node st source = none ∨ get_node st destination = none
        ∨ source = destination ∨ MAX_MSATOSHI ≤ msatoshi) →
      get_route env st source destination msatoshi riskfactor final_cltv
        fuzz = none)
    ∧ ∀ hops, get_route env st source destination msatoshi riskfactor
        final_cltv fuzz = some hops →
        get_node st source ≠ none ∧ get_node st destination ≠ none
        ∧ source ≠ destination ∧ msatoshi < MAX_MSATOSHI
        ∧ hops ≠ [] ∧ hops.length ≤ ROUTING_MAX_HOPS
        ∧ routablePath st env.now source
            (hops.map (fun hp : RouteHop => hp.channel_id)) destination
            = true := by
  constructor
  · intro hcond
    unfold get_route
    rw [find_route_none env st source destination msatoshi _ fuzz hcond]
  · intro hops h
    unfold get_route at h
    cases hfr : find_route env st source destination msatoshi
        (riskfactor / (BLOCKS_PER_YEAR : ℚ) / 10000) fuzz with
    | none =>
      rw [hfr] at h
      exact absurd h (by simp)
    | some route =>
      rw [hfr] at h
      dsimp only at h
      cases hm : materializeHops st route.reverse
          (destination, msatoshi, final_cltv, []) with
      | none =>
        rw [hm] at h
        exact absurd h (by simp)
      | some res =>
        rw [hm] at h
        obtain ⟨nid, a, d, hps⟩ := res
        dsimp only at h
        by_cases hnid : nid = source
        · rw [if_pos hnid] at h
          have hhops : hps = hops := Option.some_inj.1 h
          obtain ⟨hg1, hg2, hg3, hg4⟩ := find_route_guards env st source
            destination msatoshi _ fuzz route hfr
          obtain ⟨hlen20, hpath⟩ := find_route_sound env st source
            destination msatoshi _ fuzz route hadj hfr
          have hne := find_route_ne_nil env st source destination msatoshi
            (riskfactor / (BLOCKS_PER_YEAR : ℚ) / 10000) fuzz route hfr
          have hmap := materializeHops_map_channel st route.reverse
            destination msatoshi final_cltv [] (nid, a, d, hps) hm
          simp only [List.reverse_reverse, List.map_nil,
            List.append_nil] at hmap
          refine ⟨hg1, hg2, hg3, hg4, ?_, ?_, ?_⟩
          · rw [← hhops]
            intro he
            rw [he] at hmap
            simp at hmap
            exact hne hmap
          · rw [← hhops]
            have hlenmap : hps.length = route.length := by
              rw [← hmap]
              simp
            rw [hlenmap]
            exact hlen20
          · rw [← hhops, hmap]
            exact hpath
        · rw [if_neg hnid] at h
          exact absurd h (by simp)

/-- C4 (amended): a pending channel announcement enters the store only
after parse, feature, chain-hash and signature checks, recording the
verified bytes with empty update slots; a node announcement is parked only
after parse, feature and signature checks; but a deferred channel update
is buffered on the pending entry after only parse and chain-hash checks —
its signature is not verified at buffering time (only on replay). -/
theorem c4_pending_admission (env : Env) (st : RoutingState)
    (announce ann update : List Nat) :
    (∀ p ∈ (handle_channel_announcement env st announce).1.pending_cann,
      p ∈ st.pending_cann
      ∨ ∃ msg, env.parseCA announce = some msg
          ∧ env.unsupportedFeatures msg.features = false
          ∧ msg.chain_hash = st.chain_hash
          ∧ env.checkCAnnSig announce = true
          ∧ p.announce = announce
          ∧ p.short_channel_id = msg.short_channel_id
          ∧ p.updates0 = none ∧ p.updates1 = none)
    ∧ (∀ q ∈ (handle_node_announcement env st ann).pending_node_map,
        q ∈ st.pending_node_map
        ∨ ∃ msg pna, env.parseNA ann = some msg
            ∧ env.unsupportedFeatures msg.features = false
            ∧ env.checkNASig ann = true
            ∧ find_pending_node_announce st msg.node_id = some pna
            ∧ q = { pna with timestamp := msg.timestamp,
                             node_announcement := some ann })
    ∧ (∀ msg p, env.parseCU update = some msg →
        msg.chain_hash = st.chain_hash →
        (get_channel st msg.short_channel_id = none
         ∨ ∃ c, get_channel st msg.short_channel_id = some c
             ∧ c.public = false) →
        find_pending_cannouncement st msg.short_channel_id = some p →
        (handle_channel_update env st update).pending_cann
          = replaceFirstBy
              (fun q => q.short_channel_id == msg.short_channel_id)
              (update_pending p msg.timestamp update (msg.flags % 2))
              st.pending_cann) := by
  refine ⟨?_, ?_, ?_⟩
  · intro p hmem
    unfold handle_channel_announcement at hmem
    cases hp : env.parseCA announce with
    | none =>
      rw [hp] at hmem
      exact Or.inl hmem
    | some msg =>
      rw [hp] at hmem
      dsimp only at hmem
      split at hmem
      · exact Or.inl hmem
      · split at hmem
        · exact Or.inl hmem
        · split at hmem
          · exact Or.inl hmem
          · split at hmem
            · exact Or.inl hmem
            · split at hmem
              · exact Or.inl hmem
              · rename_i hpub hpend hfeat hchain hsig
                simp only [add_pending_node_announcement,
                  List.mem_append] at hmem
                rcases hmem with hmem | hmem
                · exact Or.inl hmem
                · have hpeq := List.mem_singleton.1 hmem
                  refine Or.inr ⟨msg, rfl, ?_, ?_, ?_, ?_, ?_, ?_, ?_⟩
                  · simpa using hfeat
                  · exact not_not.1 hchain
                  · simpa using hsig
                  · rw [hpeq]
                  · rw [hpeq]
                  · rw [hpeq]
                  · rw [hpeq]
  · intro q hmem
    unfold handle_node_announcement at hmem
    cases hp : env.parseNA ann with
    | none =>
      rw [hp] at hmem
      exact Or.inl hmem
    | some msg =>
      rw [hp] at hmem
      dsimp only at hmem
      split at hmem
      · exact Or.inl hmem
      · split at hmem
        · exact Or.inl hmem
        · rename_i hfeat hsig
          cases hnode : get_node st msg.node_id with
          | none =>
            rw [hnode] at hmem
            cases hpna : find_pending_node_announce st msg.node_id with
            | none =>
              rw [hpna] at hmem
              exact Or.inl hmem
            | some pna =>
              rw [hpna] at hmem
              dsimp only at hmem
              split at hmem
              · rcases mem_replaceFirstBy hmem with hq | hq
                · refine Or.inr ⟨msg, pna, rfl, ?_, ?_, hpna, hq⟩
                  · simpa using hfeat
                  · simpa using hsig
                · exact Or.inl hq
              · exact Or.inl hmem
          | some node =>
            rw [hnode] at hmem
            dsimp only at hmem
            split at hmem
            · exact Or.inl hmem
            · split at hmem
              · exact Or.inl hmem
              · exact Or.inl hmem
  · intro msg p hp hchain hchanor hpend
    rw [hcu_to_pending env st update msg p hp hchain hchanor hpend]

/-! ### Concrete scenarios: environments, states, evaluations -/

-- concrete messages

theorem foldl_fixedW {α : Type} {β : Type} (g : α → β → α) (c : α)
    (h : ∀ x, g c x = c) : ∀ l : List β, l.foldl g c = c := by
  intro l
  induction l with
  | nil => rfl
  | cons x xs ih => rw [List.foldl_cons, h x, ih]

theorem find_route_reduceW (env : Env) (st : RoutingState) (fromN toN : Nat)
    (msatoshi : Nat) (riskfactor fuzz : ℚ) (src dst : Node)
    (h1 : get_node st toN = some src) (h2 : get_node st fromN = some dst)
    (h3 : dst.id ≠ src.id) (h4 : msatoshi < MAX_MSATOSHI) :
    find_route env st fromN toN msatoshi riskfactor fuzz =
      find_route_finish st
        ((List.range ROUTING_MAX_HOPS).foldl
          (fun b _ => bfgRun env st riskfactor fuzz b)
          (bfgSet clearedBfg src.id 0 ⟨msatoshi, 0, none⟩))
        dst.id src.id := by
  unfold find_route
  rw [h1, h2]
  show (if dst.id = src.id then none
        else if MAX_MSATOSHI ≤ msatoshi then none
        else find_route_finish st
          ((List.range ROUTING_MAX_HOPS).foldl
            (fun b _ => bfgRun env st riskfactor fuzz b)
            (bfgSet clearedBfg src.id 0 ⟨msatoshi, 0, none⟩))
          dst.id src.id) = _
  rw [if_neg h3, if_neg (by omega)]

theorem fr_stX : find_route envC stX 1 2 1000 0 0 = some [5] := by
  have e1 : bfgRun envC stX 0 0 b0S = b1S := by decide
  have efix : ∀ x : Nat,
      (fun b (_ : Nat) => bfgRun envC stX 0 0 b) b1S x = b1S := by
    intro x
    show bfgRun envC stX 0 0 b1S = b1S
    decide
  have hr : List.range ROUTING_MAX_HOPS =
      0 :: [1, 2, 3, 4, 5, 6, 7, 8, 9, 10, 11, 12, 13, 14, 15, 16, 17, 18,
        19] := by decide
  have hf : (List.range ROUTING_MAX_HOPS).foldl
      (fun b (_ : Nat) => bfgRun envC stX 0 0 b) b0S = b1S := by
    rw [hr, List.foldl_cons]
    show ([1, 2, 3, 4, 5, 6, 7, 8, 9, 10, 11, 12, 13, 14, 15, 16, 17, 18,
        19].foldl (fun b (_ : Nat) => bfgRun envC stX 0 0 b)
        (bfgRun envC stX 0 0 b0S)) = b1S
    rw [e1]
    exact foldl_fixedW _ _ efix _
  rw [find_route_reduceW envC stX 1 2 1000 0 0 (mkNode 2 [5]) (mkNode 1 [5])
        (by decide) (by decide) (by decide) (by decide)]
  show find_route_finish stX
      ((List.range ROUTING_MAX_HOPS).foldl
        (fun b (_ : Nat) => bfgRun envC stX 0 0 b) b0S) 1 2 = some [5]
  rw [hf]
  decide

theorem fr_stX_overflow :
    find_route envC stX 1 2 (2 ^ 40 - 1) 0 0 = none := by
  have efix : ∀ x : Nat,
      (fun b (_ : Nat) => bfgRun envC stX 0 0 b) b0F x = b0F := by
    intro x
    show bfgRun envC stX 0 0 b0F = b0F
    decide
  have hf : (List.range ROUTING_MAX_HOPS).foldl
      (fun b (_ : Nat) => bfgRun envC stX 0 0 b) b0F = b0F :=
    foldl_fixedW _ _ efix _
  rw [find_route_reduceW envC stX 1 2 (2 ^ 40 - 1) 0 0 (mkNode 2 [5])
        (mkNode 1 [5]) (by decide) (by decide) (by decide) (by decide)]
  show find_route_finish stX
      ((List.range ROUTING_MAX_HOPS).foldl
        (fun b (_ : Nat) => bfgRun envC stX 0 0 b) b0F) 1 2 = none
  rw [hf]
  decide

theorem get_route_zero_risk (env : Env) (st : RoutingState)
    (source destination msatoshi : Nat) (final_cltv : Nat) (fuzz : ℚ) :
    get_route env st source destination msatoshi 0 final_cltv fuzz =
      (match find_route env st source destination msatoshi 0 fuzz with
       | none => none
       | some route =>
         match materializeHops st route.reverse
             (destination, msatoshi, final_cltv, []) with
         | none => none
         | some (nid, _, _, hops) =>
           if nid = source then some hops else none) := by
  unfold get_route
  rw [show (0 : ℚ) / ((BLOCKS_PER_YEAR : Nat) : ℚ) / 10000 = 0 by norm_num]
  try rfl

theorem get_route_stX_some :
    get_route envC stX 1 2 1000 0 9 0 = some [⟨5, 2, 1000, 9⟩] := by
  rw [get_route_zero_risk, fr_stX]
  decide

theorem get_route_stX_overflow_none :
    get_route envC stX 1 2 (2 ^ 40 - 1) 0 9 0 = none := by
  rw [get_route_zero_risk, fr_stX_overflow]

theorem c1_cex :
    get_node stX 1 ≠ none ∧ get_node stX 2 ≠ none ∧ (1 : Nat) ≠ 2
    ∧ 2 ^ 40 - 1 < MAX_MSATOSHI
    ∧ routablePath stX envC.now 1 [5] 2 = true
    ∧ ([5] : List Nat).length ≤ ROUTING_MAX_HOPS
    ∧ get_route envC stX 1 2 (2 ^ 40 - 1) 0 9 0 = none :=
  ⟨by decide, by decide, by decide, by decide, by decide, by decide,
   get_route_stX_overflow_none⟩

theorem c6_cex :
    UPDATE &&& NODE = 0 ∧ UPDATE &&& PERM = 0
    ∧ get_node stX 1 = some (mkNode 1 [5])
    ∧ get_channel stX 5 = some cX ∧ (cX.node0 = 1 ∨ cX.node1 = 1)
    ∧ (get_channel (routing_failure envC stX 1 5 UPDATE [6]) 5).map
        (fun c2 => (halfOf c2 (halfChanFrom 1 cX)).unroutable_until)
        = some 0
    ∧ (0 : Int) ≠ envC.now + 20 := by decide

theorem c7_cex :
    UPDATE &&& NODE = 0
    ∧ get_node stT 3 = some (mkNode 3 [11])
    ∧ get_channel stT 10 = some c1T
    ∧ c1T.node0 ≠ 3 ∧ c1T.node1 ≠ 3
    ∧ routing_failure envC stT 3 10 UPDATE [7] ≠ stT := by decide

theorem c8_cex :
    find_pending_cannouncement stP 20 = some p8
    ∧ (p8.node_id_1 = stP.local_id ∨ p8.node_id_2 = stP.local_id)
    ∧ ([5, 5] : List Nat) ≠ []
    ∧ (handle_pending_cannouncement envC stP 20 1000 [5, 5]).2 = false := by
  decide

theorem c4_cex :
    (find_pending_cannouncement (handle_channel_update envB stP [4]) 20).map
        (fun p => pendingUpdate p 0) = some (some [4])
    ∧ (∀ k, envB.checkCUSig k [4] = false) := by
  constructor
  · decide
  · intro k
    rfl

/-! ### Witnesses: the claim theorems at concrete inputs -/

theorem c1_get_route_guards_witness :
    get_route envC stP 1 2 5 0 9 0 = none :=
  (c1_get_route_guards envC stP 1 2 5 0 9 0
    (by intro nd hnd; simp [stP] at hnd)).1 (Or.inl rfl)

theorem c2_route_fee_telescope_witness :
    ([⟨5, 2, 1000, 9⟩] : List RouteHop) ≠ []
    ∧ (∀ last, ([⟨5, 2, 1000, 9⟩] : List RouteHop).getLast? = some last →
        last.amount = 1000 ∧ last.delay = 9)
    ∧ List.Chain' (fun x y : RouteHop =>
        ∃ c, get_channel stX y.channel_id = some c
          ∧ x.amount = y.amount
              + connection_fee (halfOf c (halfChanTo y.nodeid c)) y.amount
          ∧ x.delay = y.delay + (halfOf c (halfChanTo y.nodeid c)).delay)
        [⟨5, 2, 1000, 9⟩] :=
  c2_route_fee_telescope envC stX 1 2 1000 0 9 0 [⟨5, 2, 1000, 9⟩]
    get_route_stX_some

theorem c3_outdated_update_noop_witness :
    (handle_channel_update envC stX [3]).chanmap = stX.chanmap :=
  (c3_outdated_update_noop envC stX [3]).1 msgOld5 cX (by decide) (by decide)
    (by decide)

theorem c4_pending_admission_witness :
    (handle_channel_update envB stP [4]).pending_cann
      = replaceFirstBy
          (fun q => q.short_channel_id == msgP20.short_channel_id)
          (update_pending p8 msgP20.timestamp [4] (msgP20.flags % 2))
          stP.pending_cann :=
  (c4_pending_admission envB stP [] [] [4]).2.2 msgP20 p8 (by decide)
    (by decide) (Or.inl (by decide)) (by decide)

theorem c5_route_prune_stale_public_witness :
    cY ∈ (route_prune envC stS2).chanmap :=
  (c5_route_prune_stale_public envC stS2 (by decide) (by decide)
    (by decide)).2.1 cY (by decide) (by decide)

theorem c6_failure_deactivates_or_destroys_witness :
    ∃ c2, get_channel (routing_failure envC stX 1 5 0 []) 5 = some c2
      ∧ c2.node0 = cX.node0 ∧ c2.node1 = cX.node1
      ∧ ((halfOf c2 (halfChanFrom 1 cX)).unroutable_until = envC.now + 20
         ∨ (0 &&& UPDATE ≠ 0
            ∧ (halfOf c2 (halfChanFrom 1 cX)).unroutable_until = 0
            ∧ (halfOf cX (halfChanFrom 1 cX)).last_timestamp
                < (halfOf c2 (halfChanFrom 1 cX)).last_timestamp)) :=
  (c6_failure_deactivates_or_destroys envC stX 1 5 0 [] (mkNode 1 [5]) cX
    (by decide) (by decide) (by decide) (by decide) (by decide) (by decide)
    (by decide)).2 (by decide)

theorem c7_disconnected_scid_noop_witness :
    routing_failure envC stT 3 10 0 [] = stT :=
  c7_disconnected_scid_noop envC stT 3 10 0 [] c1T (by decide) (by decide)
    (by decide) (Or.inl (by decide))

theorem c8_resolution_returns_locality_witness :
    (handle_pending_cannouncement envC stP 20 1000 [9, 9]).2 = true :=
  (c8_resolution_returns_locality envC stP 20 1000 [9, 9]).2
    ⟨p8, by decide, by decide, by decide, Or.inl (by decide)⟩

theorem c9_overflow_fee_disables_witness :
    ∃ c2, get_channel (handle_channel_update envC stX [8])
        msgBig5.short_channel_id = some c2
      ∧ (halfOf c2 (msgBig5.flags % 2)).active = false :=
  c9_overflow_fee_disables envC stX [8] msgBig5 cX (by decide) (by decide)
    (by decide) (Or.inl (by decide)) (by decide) (by decide) (by decide)

theorem c10_pending_buffers_newest_wins_witness :
    ∃ p2, find_pending_cannouncement (handle_channel_update envC stP [4])
            msgP20.short_channel_id = some p2
      ∧ (pendingTs p8 (msgP20.flags % 2) < msgP20.timestamp →
          pendingUpdate p2 (msgP20.flags % 2) = some [4]
          ∧ pendingTs p2 (msgP20.flags % 2) = msgP20.timestamp
          ∧ pendingUpdate p2 (1 - msgP20.flags % 2)
              = pendingUpdate p8 (1 - msgP20.flags % 2)
          ∧ pendingTs p2 (1 - msgP20.flags % 2)
              = pendingTs p8 (1 - msgP20.flags % 2)
          ∧ p2.announce = p8.announce)
      ∧ (msgP20.timestamp ≤ pendingTs p8 (msgP20.flags % 2) → p2 = p8) :=
  (c10_pending_buffers_newest_wins envC stP).1 [4] msgP20 p8 (by decide)
    (by decide) (Or.inl (by decide)) (by decide)
